import Mathlib

/-!
Verification of the crossmemo storage-adapter core (LRU/TTL cache).

The TypeScript source is shallowly embedded: each adapter becomes a pure
state-transition function, with the ambient clock `Date.now()` passed in
explicitly as a natural number `now`.  JavaScript truthiness on numbers
(`options?.maxSize || Infinity`, `options?.ttl ? ... : undefined`,
`!entry.expiry`) is modelled by explicit `Option Nat` values where `some 0`
falls back like the source's falsy zero.  JSON serialisation of entries and
of the access-order document is modelled by an explicit content datatype
`Content`: `Content.bad` stands for any stored string that fails to parse.
-/

namespace Crossmemo

/-- Association-list lookup: first binding for the key, like `Map.get` /
`localStorage.getItem` / a file lookup by name. -/
def alookup {β : Type} (k : String) : List (String × β) → Option β
  | [] => none
  | p :: t => if p.1 = k then some p.2 else alookup k t

/-- Position-preserving upsert: an existing key keeps its place (as in a JS
`Map.set`, object property write, or overwriting a file), a new key is
appended, matching JS insertion-order enumeration. -/
def aset {β : Type} (k : String) (v : β) : List (String × β) → List (String × β)
  | [] => [(k, v)]
  | p :: t => if p.1 = k then (k, v) :: t else p :: aset k v t

/-- Removal of a key (`Map.delete`, `localStorage.removeItem`, `fs.unlink`);
removing an absent key is a no-op. -/
def aerase {β : Type} (k : String) (l : List (String × β)) : List (String × β) :=
  l.filter (fun p => decide (p.1 ≠ k))

/-- Source: `options?.maxSize || Infinity`.  A missing or zero (falsy)
capacity yields `none`, meaning unbounded. -/
def jsCapacity (o : Option Nat) : Option Nat :=
  match o with
  | none => none
  | some 0 => none
  | some n => some n

/-- Source: `options?.ttl ? Date.now() + options.ttl : undefined`.  A missing
or zero (falsy) ttl stores no expiry. -/
def jsExpiry (now : Nat) (ttl : Option Nat) : Option Nat :=
  match ttl with
  | none => none
  | some 0 => none
  | some d => some (now + d)

/-- Source (all three adapters): `if (!entry.expiry) return false; return
Date.now() >= entry.expiry;`.  An absent or zero (falsy) expiry never
expires; otherwise expiry is boundary-inclusive at `now = expiry`. -/
def jsExpired (now : Nat) (expiry : Option Nat) : Bool :=
  match expiry with
  | none => false
  | some t => if t = 0 then false else decide (t ≤ now)

/-- Source: `count > this.maxSize` where `maxSize` may be `Infinity`. -/
def capLT (cap : Option Nat) (n : Nat) : Bool :=
  match cap with
  | none => false
  | some m => decide (m < n)

/-- Source: `count >= this.maxSize` where `maxSize` may be `Infinity`. -/
def capLE (cap : Option Nat) (n : Nat) : Bool :=
  match cap with
  | none => false
  | some m => decide (m ≤ n)

/-- The value+timestamp+expiry envelope `CacheEntry<T>` shared by all
backends. -/
structure CacheEntry (α : Type) where
  value : α
  timestamp : Nat
  expiry : Option Nat
deriving DecidableEq

/-- State of `MemoryAdapter<T>`: the key→entry map (insertion-ordered, as a
JS `Map`) and the recency array `accessOrder` (oldest first).  The configured
capacity (`this.maxSize`) is passed to each operation. -/
structure MemoryState (α : Type) where
  store : List (String × CacheEntry α)
  accessOrder : List String
deriving DecidableEq

namespace Memory

variable {α : Type}

/-- Fresh adapter: empty map, empty access order. -/
def init : MemoryState α := ⟨[], []⟩

/-- Source `MemoryAdapter.updateAccessOrder`: drop the key, push it at the
tail (most recently used). -/
def updateAccessOrder (key : String) (order : List String) : List String :=
  order.filter (fun k => decide (k ≠ key)) ++ [key]

/-- One iteration of the expired-entry sweep in `MemoryAdapter.cleanup`:
delete the entry and its access-order membership if expired. -/
def expireStep (now : Nat) (st : MemoryState α) (p : String × CacheEntry α) : MemoryState α :=
  if jsExpired now p.2.expiry then
    ⟨aerase p.1 st.store, st.accessOrder.filter (fun k => decide (k ≠ p.1))⟩
  else st

/-- The `while (store.size > maxSize && accessOrder.length > 0)` LRU loop of
`MemoryAdapter.cleanup`.  The body only shifts when the head is truthy; on an
empty-string head the source would spin forever, so no state beyond the loop
entry is reachable there and we return the state at that point. -/
def evictLoop (cap : Option Nat) : List String → List (String × CacheEntry α) →
    List String × List (String × CacheEntry α)
  | [], store => ([], store)
  | key :: rest, store =>
    if capLT cap store.length then
      if key = "" then (key :: rest, store)
      else evictLoop cap rest (aerase key store)
    else (key :: rest, store)

/-- Source `MemoryAdapter.cleanup`: drop access-order keys not in the store,
sweep expired entries, then LRU-evict while over capacity. -/
def cleanup (now : Nat) (cap : Option Nat) (st : MemoryState α) : MemoryState α :=
  let order0 := st.accessOrder.filter (fun k => (alookup k st.store).isSome)
  let st1 := st.store.foldl (expireStep now) ⟨st.store, order0⟩
  let p := evictLoop cap st1.accessOrder st1.store
  ⟨p.2, p.1⟩

/-- Source `MemoryAdapter.get`: miss on absent key; expired entry is purged
and reported as a miss; a hit renews recency and returns the value. -/
def get (now : Nat) (key : String) (st : MemoryState α) : Option α × MemoryState α :=
  match alookup key st.store with
  | none => (none, st)
  | some e =>
    if jsExpired now e.expiry then
      (none, ⟨aerase key st.store, st.accessOrder.filter (fun k => decide (k ≠ key))⟩)
    else
      (some e.value, ⟨st.store, updateAccessOrder key st.accessOrder⟩)

/-- Source `MemoryAdapter.set`: cleanup, evict the access-order head if at
capacity and the key is new (skipped when the head is the falsy empty
string), then insert the fresh entry and renew recency. -/
def set (now : Nat) (cap : Option Nat) (key : String) (v : α) (ttl : Option Nat)
    (st : MemoryState α) : MemoryState α :=
  let st1 := cleanup now cap st
  let st2 :=
    if capLE cap st1.store.length && (alookup key st1.store).isNone then
      match st1.accessOrder with
      | [] => st1
      | oldest :: rest =>
        if oldest = "" then st1
        else ⟨aerase oldest st1.store, rest⟩
    else st1
  ⟨aset key ⟨v, now, jsExpiry now ttl⟩ st2.store, updateAccessOrder key st2.accessOrder⟩

/-- Source `MemoryAdapter.delete`. -/
def delete (key : String) (st : MemoryState α) : MemoryState α :=
  ⟨aerase key st.store, st.accessOrder.filter (fun k => decide (k ≠ key))⟩

/-- Source `MemoryAdapter.clear`. -/
def clear (_st : MemoryState α) : MemoryState α := ⟨[], []⟩

/-- Source `MemoryAdapter.has`: present-and-unexpired check.  Note: unlike
`get`, a hit does NOT renew recency in this adapter. -/
def has (now : Nat) (key : String) (st : MemoryState α) : Bool × MemoryState α :=
  match alookup key st.store with
  | none => (false, st)
  | some e =>
    if jsExpired now e.expiry then
      (false, ⟨aerase key st.store, st.accessOrder.filter (fun k => decide (k ≠ key))⟩)
    else
      (true, st)

end Memory

/-- Contents of one backing-store slot (a `localStorage` string or a file):
`ord l` is a serialised array (`JSON.parse` gives back the array `l`),
`bad` is a string `JSON.parse` throws on (arbitrarily malformed data), and
`ent e` is any other parseable document — read as an object, `e` records
the `value`/`timestamp`/`expiry` fields its parse exposes.  The `value`
field is an `Option α` because `JSON.stringify` drops a field holding the
JS `undefined`: an entry stored with an undefined value serialises without
a `value` field, and the parse reads the absent field back as `undefined`
(`none`).  A document with no such fields at all (e.g. a stray object under
the reserved access-order key) exposes `value`/`expiry` as `undefined`,
i.e. `⟨none, t, none⟩`-shaped. -/
inductive Content (α : Type) where
  | ent (e : CacheEntry (Option α))
  | ord (l : List String)
  | bad
deriving DecidableEq

/-- State of `LocalStorageAdapter<T>`: the whole backing `localStorage`, a
string-keyed store enumerated in insertion order (`Object.keys`).  Both the
namespace's entries (under `pre ++ key`) and its access-order document
(under `pre ++ "__access_order"`) live here, alongside any foreign keys.
The configured key namespace `pre` (source field `prefix`, default
`"cache:"`) and capacity are passed to each operation. -/
abbrev LSStorage (α : Type) := List (String × Content α)

namespace LS

variable {α : Type}

/-- Source `LocalStorageAdapter.accessOrderKey`. -/
def orderKey (pre : String) : String := pre ++ "__access_order"

/-- Source `LocalStorageAdapter.getAccessOrder`: read and parse the order
document; a missing, empty or unparseable document yields `[]`; an array
document yields the array.  Any other parseable document is returned as-is
by the source (`JSON.parse` succeeds, the `catch` is not taken), and every
caller immediately invokes `.filter` on the returned object, which throws a
`TypeError` on a non-array — that case is `none` here, and each caller
models the resulting throw. -/
def getAccessOrder (pre : String) (s : LSStorage α) : Option (List String) :=
  match alookup (orderKey pre) s with
  | some (.ord l) => some l
  | some (.ent _) => none
  | _ => some []

/-- Source `LocalStorageAdapter.setAccessOrder`. -/
def setAccessOrder (pre : String) (l : List String) (s : LSStorage α) : LSStorage α :=
  aset (orderKey pre) (.ord l) s

/-- Source `LocalStorageAdapter.removeFromStorage`: remove the entry, then
read-filter-write the order document.  When the order document parses to a
non-array the `.filter` throws (`Except.error`), with the entry already
removed and the order document untouched. -/
def removeFromStorage (pre : String) (key : String) (s : LSStorage α) :
    Except Unit Unit × LSStorage α :=
  let s1 := aerase (pre ++ key) s
  match getAccessOrder pre s1 with
  | none => (Except.error (), s1)
  | some l =>
    (Except.ok (), setAccessOrder pre (l.filter (fun k => decide (k ≠ key))) s1)

/-- Source `LocalStorageAdapter.updateAccessOrder`: move the key to the
tail; if the raw order length then exceeds `maxSize`, shift the head and
remove it from storage (the shift is unconditional; the removal is skipped
for a falsy empty-string head).  The initial `.filter` throws when the
order document parses to a non-array (`Except.error`, state unchanged); a
throw inside `removeFromStorage` likewise escapes. -/
def updateAccessOrder (pre : String) (cap : Option Nat) (key : String)
    (s : LSStorage α) : Except Unit Unit × LSStorage α :=
  match getAccessOrder pre s with
  | none => (Except.error (), s)
  | some l =>
    let order := l.filter (fun k => decide (k ≠ key)) ++ [key]
    if capLT cap order.length then
      match order with
      | [] => (Except.ok (), setAccessOrder pre [] s)
      | oldest :: rest =>
        if oldest = "" then (Except.ok (), setAccessOrder pre rest s)
        else
          match removeFromStorage pre oldest s with
          | (Except.ok _, s1) => (Except.ok (), setAccessOrder pre rest s1)
          | (Except.error _, s1) => (Except.error (), s1)
    else (Except.ok (), setAccessOrder pre order s)

/-- Source `LocalStorageAdapter.get`: miss on an absent raw string; inside
the `try`, a parse failure or an expiry purge or a recency renewal may each
throw (only via a `.filter` on a non-array order document), landing in the
`catch`, which runs `removeFromStorage(key)` and returns `undefined` — and
if that `removeFromStorage` itself throws, the promise rejects
(`Except.error`).  A hit resolves `entry.value`, which is `undefined`
(`none`) when the stored document carries no `value` field.  (A stored
array under an entry key — not producible by the adapter — parses to an
object whose `expiry` and `value` fields are `undefined`, so the source
renews recency and resolves `undefined`.) -/
def get (now : Nat) (pre : String) (cap : Option Nat) (key : String)
    (s : LSStorage α) : Except Unit (Option α) × LSStorage α :=
  match alookup (pre ++ key) s with
  | none => (Except.ok none, s)
  | some (.ent e) =>
    if jsExpired now e.expiry then
      match removeFromStorage pre key s with
      | (Except.ok _, s1) => (Except.ok none, s1)
      | (Except.error _, s1) =>
        match removeFromStorage pre key s1 with
        | (Except.ok _, s2) => (Except.ok none, s2)
        | (Except.error _, s2) => (Except.error (), s2)
    else
      match updateAccessOrder pre cap key s with
      | (Except.ok _, s1) => (Except.ok e.value, s1)
      | (Except.error _, s1) =>
        match removeFromStorage pre key s1 with
        | (Except.ok _, s2) => (Except.ok none, s2)
        | (Except.error _, s2) => (Except.error (), s2)
  | some (.ord _) =>
    match updateAccessOrder pre cap key s with
    | (Except.ok _, s1) => (Except.ok none, s1)
    | (Except.error _, s1) =>
      match removeFromStorage pre key s1 with
      | (Except.ok _, s2) => (Except.ok none, s2)
      | (Except.error _, s2) => (Except.error (), s2)
  | some .bad =>
    match removeFromStorage pre key s with
    | (Except.ok _, s1) => (Except.ok none, s1)
    | (Except.error _, s1) => (Except.error (), s1)

/-- Source `LocalStorageAdapter.set`, storage-accepting path: serialise and
store the fresh entry — `JSON.stringify` drops the `value` field when the
value is the JS `undefined` (`undef v`), so the stored document parses back
with `value = none` — then renew recency through `updateAccessOrder`.  The
backing store accepts the write, so the quota-failure path is not taken for
storage reasons; but if `updateAccessOrder` throws the non-array-order
`TypeError`, the `catch` runs `cleanup`, whose own
`getAccessOrder().filter` rethrows on the same document before any further
state change, and `set` rejects with the entry written. -/
def set (undef : α → Bool) (now : Nat) (pre : String) (cap : Option Nat)
    (key : String) (v : α) (ttl : Option Nat) (s : LSStorage α) :
    Except Unit Unit × LSStorage α :=
  let s1 := aset (pre ++ key)
    (.ent ⟨if undef v then none else some v, now, jsExpiry now ttl⟩) s
  match updateAccessOrder pre cap key s1 with
  | (Except.ok _, s2) => (Except.ok (), s2)
  | (Except.error _, s2) => (Except.error (), s2)

/-- Source `LocalStorageAdapter.delete`: exactly `removeFromStorage`. -/
def delete (pre : String) (key : String) (s : LSStorage α) :
    Except Unit Unit × LSStorage α :=
  removeFromStorage pre key s

/-- Source `LocalStorageAdapter.clear`: remove every key with the
namespace's marker, remove the order document, then `localStorage.clear()`
("to ensure a clean slate"), which empties the whole backing store.  It
never reads the order document, so it never throws. -/
def clear (pre : String) (s : LSStorage α) : LSStorage α :=
  let keys := (s.map Prod.fst).filter (fun k => pre.isPrefixOf k)
  let s1 := keys.foldl (fun acc k => aerase k acc) s
  let _s2 := aerase (orderKey pre) s1
  ([] : LSStorage α)

/-- Source `LocalStorageAdapter.has`: `(await get(key)) !== undefined`.  A
stored undefined reads back as `undefined` (its `value` field was dropped
by `JSON.stringify`), indistinguishable from a miss; if `get` rejects,
`has` rejects. -/
def has (now : Nat) (pre : String) (cap : Option Nat) (key : String)
    (s : LSStorage α) : Except Unit Bool × LSStorage α :=
  let r := get now pre cap key s
  (r.1.map Option.isSome, r.2)

end LS

/-- State of `FileSystemAdapter<T>`: the cache directory.  `files` maps each
entry file (named by the md5 hash of its key; the `.json` suffix common to
every name is elided) to its contents in directory-listing order, and
`orderFile` is the `__access_order.json` index document (`none` when the
file does not exist yet).  The directory itself always exists in the model:
`ensureDirectory` creates it on first use, and a missing directory is
observationally an empty one.  The configured capacity is passed to each
operation. -/
structure FSState (α : Type) where
  files : List (String × Content α)
  orderFile : Option (Content α)
deriving DecidableEq

namespace FS

variable {α : Type}

/-- Source `FileSystemAdapter.getFilePath`: the md5 hex digest of the key.
The digest is modelled as a marker character prepended to the key: like the
source's hash it is deterministic and injective (collision-resistant), and
theorems about keys that are not themselves digest-shaped assume no key
starts with the marker. -/
def hash (key : String) : String := "#" ++ key

/-- Fresh adapter over an absent (or empty) directory. -/
def init : FSState α := ⟨[], none⟩

/-- Source `FileSystemAdapter.getAccessOrder`: a missing or unparseable
index file reads as `[]` (the `catch`); an array file yields the array.
Any other parseable index file is returned as-is, and the callers'
`.filter`/`.includes` calls on it throw a `TypeError` — that case is `none`
here, and each caller models the resulting throw. -/
def getAccessOrder (st : FSState α) : Option (List String) :=
  match st.orderFile with
  | some (.ord l) => some l
  | some (.ent _) => none
  | _ => some []

/-- One file of the `FileSystemAdapter.cleanup` scan: accumulate the
surviving directory and the file names (sans `.json`) of the valid entries.
An unparseable or expired file is unlinked; a parseable one survives, and an
array-shaped file (not producible by the adapter) parses to an object with
no `expiry`, hence survives. -/
def cleanupScan (now : Nat) (acc : List (String × Content α) × List String)
    (p : String × Content α) : List (String × Content α) × List String :=
  match p.2 with
  | .bad => (aerase p.1 acc.1, acc.2)
  | .ent e =>
    if jsExpired now e.expiry then (aerase p.1 acc.1, acc.2)
    else (acc.1, acc.2 ++ [p.1])
  | .ord _ => (acc.1, acc.2 ++ [p.1])

/-- The reconciliation step of `FileSystemAdapter.cleanup`: keep tracked
keys that are still valid, then push any valid-but-untracked name. -/
def addMissing (base : List String) (valid : List String) : List String :=
  valid.foldl (fun acc k => if acc.contains k then acc else acc ++ [k]) base

/-- The `while (updatedOrder.length > maxSize)` loop of
`FileSystemAdapter.cleanup`: shift the head unconditionally and unlink its
file (skipping the unlink for a falsy empty-string head; a missing file is
ignored). -/
def evictLoop (cap : Option Nat) : List String → List (String × Content α) →
    List String × List (String × Content α)
  | [], files => ([], files)
  | key :: rest, files =>
    if capLT cap (key :: rest).length then
      evictLoop cap rest (if key = "" then files else aerase key files)
    else (key :: rest, files)

/-- Source `FileSystemAdapter.cleanup`: read the index (before the scan),
scan the directory (the index file is skipped by name, which the model
keeps in a separate field), unlink unparseable and expired entry files,
reconcile the access order against the surviving file names, LRU-evict
while over capacity, persist the order.  When the index file parses to a
non-array, the `accessOrder.filter` after the scan throws a `TypeError`:
the scan's unlinks have already happened and the index file is untouched. -/
def cleanup (now : Nat) (cap : Option Nat) (st : FSState α) :
    Except Unit Unit × FSState α :=
  let scanned := st.files.foldl (cleanupScan now) (st.files, [])
  match getAccessOrder st with
  | none => (Except.error (), ⟨scanned.1, st.orderFile⟩)
  | some order0 =>
    let keep := order0.filter (fun k => scanned.2.contains k)
    let updated := addMissing keep scanned.2
    let p := evictLoop cap updated scanned.1
    (Except.ok (), ⟨p.2, some (.ord p.1)⟩)

/-- Source `FileSystemAdapter.updateAccessOrder` applied to an order list. -/
def updateOrderList (key : String) (order : List String) : List String :=
  order.filter (fun k => decide (k ≠ key)) ++ [key]

/-- Source `FileSystemAdapter.get`: everything sits in one `try` whose
`catch` returns `undefined` with no further state change, so `get` never
rejects.  A missing or unparseable file reads as a miss with no state
change (the parse error is swallowed without unlinking).  An expired entry
is unlinked and then filtered from the order (by raw key, though the order
holds hashed names after a cleanup); if the index parses to a non-array
that filter throws after the unlink, so the file is gone, the index is
untouched, and the result is still a miss.  A live hit renews recency with
the raw key and resolves `entry.value` (`none` when the stored document
carries no `value` field); if the index parses to a non-array the renewal's
`.filter` throws before anything is written, so a live entry reads as a
miss with the state completely unchanged. -/
def get (now : Nat) (key : String) (st : FSState α) : Option α × FSState α :=
  match alookup (hash key) st.files with
  | none => (none, st)
  | some .bad => (none, st)
  | some (.ord _) =>
    match getAccessOrder st with
    | none => (none, st)
    | some l => (none, ⟨st.files, some (.ord (updateOrderList key l))⟩)
  | some (.ent e) =>
    if jsExpired now e.expiry then
      match getAccessOrder st with
      | none => (none, ⟨aerase (hash key) st.files, st.orderFile⟩)
      | some l =>
        (none, ⟨aerase (hash key) st.files,
          some (.ord (l.filter (fun k => decide (k ≠ key))))⟩)
    else
      match getAccessOrder st with
      | none => (none, st)
      | some l => (e.value, ⟨st.files, some (.ord (updateOrderList key l))⟩)

/-- Source `FileSystemAdapter.set`: await cleanup (a rejection — non-array
index — propagates, with the scan's unlinks applied and no entry written);
then, if the (post-cleanup) order does not contain the raw key and is at
capacity, shift the head, unlink its file and persist the shifted order
(skipped entirely for a falsy head, whose shift is then lost); finally
write the entry file — `JSON.stringify` drops the `value` field when the
value is the JS `undefined` (`undef v`) — and renew recency with the raw
key.  The two inner order reads sit outside any `try`, so a non-array
parse would also reject there (`currentOrder.includes` resp. the renewal's
`.filter`); after a successful cleanup the index is always an array, so
those branches are not reached from `set` itself. -/
def set (undef : α → Bool) (now : Nat) (cap : Option Nat) (key : String)
    (v : α) (ttl : Option Nat) (st : FSState α) : Except Unit Unit × FSState α :=
  match cleanup now cap st with
  | (Except.error _, st1) => (Except.error (), st1)
  | (Except.ok _, st1) =>
    match getAccessOrder st1 with
    | none => (Except.error (), st1)
    | some currentOrder =>
      let st2 :=
        if !currentOrder.contains key && capLE cap currentOrder.length then
          match currentOrder with
          | [] => st1
          | oldest :: rest =>
            if oldest = "" then st1
            else ⟨aerase oldest st1.files, some (.ord rest)⟩
        else st1
      let st3 : FSState α := ⟨aset (hash key)
        (.ent ⟨if undef v then none else some v, now, jsExpiry now ttl⟩) st2.files,
        st2.orderFile⟩
      match getAccessOrder st3 with
      | none => (Except.error (), st3)
      | some l => (Except.ok (), ⟨st3.files, some (.ord (updateOrderList key l))⟩)

/-- Source `FileSystemAdapter.delete`: inside one `try` (whose `catch`
ignores everything), unlink the hashed file and filter the raw key from
the order.  An absent file makes the unlink throw: state unchanged
(idempotent delete).  A non-array index makes the filter throw after the
unlink: file removed, index untouched, no error either way. -/
def delete (key : String) (st : FSState α) : FSState α :=
  match alookup (hash key) st.files with
  | none => st
  | some _ =>
    match getAccessOrder st with
    | none => ⟨aerase (hash key) st.files, st.orderFile⟩
    | some l =>
      ⟨aerase (hash key) st.files,
        some (.ord (l.filter (fun k => decide (k ≠ key))))⟩

/-- Source `FileSystemAdapter.clear`: unlink every file (index included),
then persist an empty order.  It never reads the index, so it never
throws. -/
def clear (_st : FSState α) : FSState α := ⟨[], some (.ord [])⟩

/-- Source `FileSystemAdapter.has`: `(await get(key)) !== undefined`; `get`
never rejects, and a stored undefined (dropped `value` field), a corrupt
or missing file, and an expired entry all read back `undefined`. -/
def has (now : Nat) (key : String) (st : FSState α) : Bool × FSState α :=
  let r := get now key st
  (r.1.isSome, r.2)

end FS

/-- State of a `memoize(fn, options)` wrapper: its private `MemoryAdapter`
cache plus a count of underlying-function invocations (the observable that
distinguishes a cache hit from a recomputation).  The wrapped function
returns `Option β`, where `none` is a JS `undefined` result; the cache
then stores values of that same type. -/
structure MemoState (β : Type) where
  cache : MemoryState (Option β)
  invocations : Nat

/-- Source `memoize` inner closure: resolve the key, consult the cache, and
on `cached !== undefined` return the cached value; otherwise invoke the
function, store its result, and return it.  At the JS interface a stored
`undefined` and a cache miss are the same observation, which
`Option.join` collapses. -/
def memoCall {σ β : Type} (cap : Option Nat) (ttl : Option Nat)
    (f : σ → Option β) (keyOf : σ → String) (now : Nat) (a : σ)
    (st : MemoState β) : Option β × MemoState β :=
  let g := Memory.get now (keyOf a) st.cache
  match g.1.join with
  | some v => (some v, ⟨g.2, st.invocations⟩)
  | none =>
    let res := f a
    (res, ⟨Memory.set now cap (keyOf a) res ttl g.2, st.invocations + 1⟩)

/-- Fresh memoized function: empty cache, no invocations yet. -/
def memoInit {β : Type} : MemoState β := ⟨Memory.init, 0⟩

/-- Sequence of `set` calls with non-expiring entries, applied left to
right, all at the same instant (the claims below are time-independent). -/
def Memory.setList {α : Type} (now : Nat) (cap : Option Nat)
    (ps : List (String × α)) (st : MemoryState α) : MemoryState α :=
  ps.foldl (fun s p => Memory.set now cap p.1 p.2 none s) st

/-- Sequence of non-expiring `set` calls on the key/value adapter, each
awaited in turn; `.2` is the backing store the call leaves behind whether
it resolves or rejects (in every scenario below each call resolves). -/
def LS.setList {α : Type} (undef : α → Bool) (now : Nat) (pre : String)
    (cap : Option Nat) (ps : List (String × α)) (s : LSStorage α) : LSStorage α :=
  ps.foldl (fun acc p => (LS.set undef now pre cap p.1 p.2 none acc).2) s

/-- Sequence of non-expiring `set` calls on the file adapter, each awaited
in turn; `.2` is the directory the call leaves behind whether it resolves
or rejects (in every scenario below each call resolves). -/
def FS.setList {α : Type} (undef : α → Bool) (now : Nat) (cap : Option Nat)
    (ps : List (String × α)) (st : FSState α) : FSState α :=
  ps.foldl (fun acc p => (FS.set undef now cap p.1 p.2 none acc).2) st

/-- Keys as the eviction claims quantify them: nonempty (the empty string is
falsy, which short-circuits the source's `if (oldestKey)` eviction guards),
not the reserved access-order document name, and not shaped like a hash
digest (no collision with the file adapter's hashed file names). -/
def plainKey (s : String) : Prop :=
  s ≠ "" ∧ s ≠ "__access_order" ∧ s.data.head? ≠ some '#'

instance (s : String) : Decidable (plainKey s) := by
  unfold plainKey
  exact inferInstance

section DerivedDefs

variable {α : Type}

/-- The entry a non-expiring `set` at instant `now` writes into the memory
adapter's `Map`. -/
def entryOf (now : Nat) (p : String × α) : CacheEntry α := ⟨p.2, now, none⟩

/-- The parse of the document a non-expiring `set` of a
serialisation-faithful (non-undefined) value writes into a persistent
backend at instant `now`. -/
def sentryOf (now : Nat) (p : String × α) : CacheEntry (Option α) :=
  ⟨some p.2, now, none⟩

/-- Adapter state after setting the distinct pairs `ps` in order, while
under capacity: each pair in the store, insertion order = access order. -/
def Memory.cleanState (now : Nat) (ps : List (String × α)) : MemoryState α :=
  ⟨ps.map (fun p => (p.1, entryOf now p)), ps.map Prod.fst⟩

/-- Storage facts holding after the distinct pairs `ps` were set in order on
the key/value adapter while under capacity: the order document is an array
listing the keys oldest-first and each pair's slot holds its serialised
entry. -/
def LS.inv (now : Nat) (pre : String) (ps : List (String × α)) (s : LSStorage α) : Prop :=
  LS.getAccessOrder pre s = some (ps.map Prod.fst) ∧
  ∀ p ∈ ps, alookup (pre ++ p.1) s = some (.ent (sentryOf now p))

/-- Directory state after the distinct pairs `ws ++ [w]` were set in order on
the file adapter while under capacity: one entry file per pair in insertion
order, and an index whose tracked names are the hashed file names for all
but the most recent key — the raw key `w.1` — because each `cleanup` rebuilds
the order from file names while `updateAccessOrder` appends raw keys. -/
def FS.cleanState (now : Nat) (ws : List (String × α)) (w : String × α) : FSState α :=
  ⟨(ws ++ [w]).map (fun p => (FS.hash p.1, Content.ent (sentryOf now p))),
   some (.ord ((ws.map fun p => FS.hash p.1) ++ [w.1]))⟩

/-- Every stored memory entry is non-expiring (holds throughout any sequence
of no-ttl sets from a fresh adapter). -/
def Memory.allFresh (st : MemoryState α) : Prop := ∀ q ∈ st.store, q.2.expiry = none

/-- A key is live on the key/value adapter: its slot parses to a
non-expiring entry whose `value` field survived serialisation. -/
def LS.liveEnt (pre : String) (k : String) (s : LSStorage α) : Prop :=
  ∃ e : CacheEntry (Option α), alookup (pre ++ k) s = some (.ent e) ∧
    e.expiry = none ∧ e.value.isSome = true

/-- Every file in the directory parses to a non-expiring entry whose
`value` field survived serialisation (holds throughout any sequence of
no-ttl sets of non-undefined values from a fresh adapter). -/
def FS.allLive (st : FSState α) : Prop :=
  ∀ q ∈ st.files, ∃ e : CacheEntry (Option α), q.2 = .ent e ∧
    e.expiry = none ∧ e.value.isSome = true

/-- Iterated calls of a memoized function at one argument, starting from a
fresh wrapper. -/
def memoIter {σ β : Type} (cap ttl : Option Nat) (f : σ → Option β)
    (keyOf : σ → String) (now : Nat) (a : σ) : Nat → MemoState β
  | 0 => memoInit
  | n + 1 => (memoCall cap ttl f keyOf now a (memoIter cap ttl f keyOf now a n)).2

end DerivedDefs

/-- No value of a plain `String`/`Nat`-like payload type is the JS
`undefined`; the persistent adapters' serialisation is the identity there. -/
def noUndef {α : Type} : α → Bool := fun _ => false

instance {ε ρ : Type} [DecidableEq ε] [DecidableEq ρ] : DecidableEq (Except ε ρ) :=
  fun a b =>
    match a, b with
    | Except.ok x, Except.ok y =>
      if h : x = y then isTrue (by rw [h])
      else isFalse (fun hc => h (Except.ok.inj hc))
    | Except.error x, Except.error y =>
      if h : x = y then isTrue (by rw [h])
      else isFalse (fun hc => h (Except.error.inj hc))
    | Except.ok x, Except.error y => isFalse (fun hc => Except.noConfusion hc)
    | Except.error x, Except.ok y => isFalse (fun hc => Except.noConfusion hc)

/-- C1 failing input on the file adapter: capacity 2, then set("A"), set("B"),
get("A") (a hit that should renew A's recency), set("C"). -/
def fsC1state : FSState String :=
  (FS.set noUndef 3 (jsCapacity (some 2)) "C" "c" none
    (FS.get 2 "A"
      (FS.set noUndef 1 (jsCapacity (some 2)) "B" "b" none
        (FS.set noUndef 0 (jsCapacity (some 2)) "A" "a" none FS.init).2).2).2).2

/-- C2 input, memory side, after set("A"), set("B") at capacity 2. -/
def memC2pre : MemoryState String :=
  Memory.set 1 (jsCapacity (some 2)) "B" "b" none
    (Memory.set 0 (jsCapacity (some 2)) "A" "a" none Memory.init)

/-- C2 input, key/value side, same two sets under the default namespace. -/
def lsC2pre : LSStorage String :=
  (LS.set noUndef 1 "cache:" (jsCapacity (some 2)) "B" "b" none
    (LS.set noUndef 0 "cache:" (jsCapacity (some 2)) "A" "a" none []).2).2

/-- C2 input, memory side, continued with has("A") then set("C"). -/
def memC2state : MemoryState String :=
  Memory.set 3 (jsCapacity (some 2)) "C" "c" none (Memory.has 2 "A" memC2pre).2

/-- C2 input, key/value side, continued with has("A") then set("C"). -/
def lsC2state : LSStorage String :=
  (LS.set noUndef 3 "cache:" (jsCapacity (some 2)) "C" "c" none
    (LS.has 2 "cache:" (jsCapacity (some 2)) "A" lsC2pre).2).2

/-- C3 failing input on the file adapter: capacity 2, set("A"), set("B"),
then an update set("B", "b2") of the already-present key. -/
def fsC3state : FSState String :=
  (FS.set noUndef 2 (jsCapacity (some 2)) "B" "b2" none
    (FS.set noUndef 1 (jsCapacity (some 2)) "B" "b" none
      (FS.set noUndef 0 (jsCapacity (some 2)) "A" "a" none FS.init).2).2).2

/-- C5 counterexample input on the memory adapter: capacity 2 with an
empty-string (falsy) first key followed by two distinct keys. -/
def memC5state : MemoryState String :=
  Memory.set 2 (jsCapacity (some 2)) "y" "vy" none
    (Memory.set 1 (jsCapacity (some 2)) "x" "vx" none
      (Memory.set 0 (jsCapacity (some 2)) "" "v0" none Memory.init))

/-- C6 counterexample input: a stored undefined value on the memory
adapter (the value type includes JS undefined, modelled as `none`). -/
def memUndefState : MemoryState (Option Unit) :=
  Memory.set 0 none "k" none none Memory.init

/-- C7 counterexample input: a directory holding one unparseable entry file
under the hashed name of key "k", with no index file. -/
def fsBadState : FSState String := ⟨[(FS.hash "k", Content.bad)], none⟩

/-- C7 witness input on the key/value adapter: a malformed slot for key "k",
tracked by the namespace's order document. -/
def lsBadState : LSStorage String :=
  [("cache:" ++ "k", Content.bad), (LS.orderKey "cache:", Content.ord ["k"])]

/-- C8 counterexample input: the backing store holds a foreign key that no
adapter namespace owns, alongside one entry of the "cache:" namespace. -/
def lsForeignState : LSStorage String :=
  [("other", Content.ent ⟨some "x", 0, none⟩),
   ("cache:" ++ "a", Content.ent ⟨some "y", 0, none⟩)]

/-- C4 counterexample input: `set("k", undefined, ttl 5)` at instant 0 on
the key/value adapter; the payload type carries the JS undefined as
`none`, which is exactly what `JSON.stringify` drops. -/
def lsUndefState : LSStorage (Option Unit) :=
  (LS.set Option.isNone 0 "cache:" none "k" none (some 5) []).2

/-- C4 counterexample input, memory side: the same `set` on the memory
adapter, whose `Map` stores the undefined value without serialising it. -/
def memUndefTtlState : MemoryState (Option Unit) :=
  Memory.set 0 none "k" none (some 5) Memory.init

/-- C7 counterexample input: the reserved order-document slot holds a
parseable non-array document (a serialised entry), alongside one live
entry of the namespace under key "k". -/
def lsEntOrderState : LSStorage String :=
  [(LS.orderKey "cache:", Content.ent ⟨some "x", 0, none⟩),
   ("cache:" ++ "k", Content.ent ⟨some "v", 0, none⟩)]

section Toolkit

variable {α β : Type}

theorem memory_setList_cons (now : Nat) (cap : Option Nat) (p : String × α)
    (t : List (String × α)) (st : MemoryState α) :
    Memory.setList now cap (p :: t) st =
      Memory.setList now cap t (Memory.set now cap p.1 p.2 none st) := by
  rw [Memory.setList, Memory.setList, List.foldl_cons]

theorem memory_setList_append (now : Nat) (cap : Option Nat)
    (xs ys : List (String × α)) (st : MemoryState α) :
    Memory.setList now cap (xs ++ ys) st =
      Memory.setList now cap ys (Memory.setList now cap xs st) := by
  rw [Memory.setList, Memory.setList, Memory.setList, List.foldl_append]

theorem ls_setList_cons (undef : α → Bool) (now : Nat) (pre : String)
    (cap : Option Nat) (p : String × α) (t : List (String × α)) (s : LSStorage α) :
    LS.setList undef now pre cap (p :: t) s =
      LS.setList undef now pre cap t (LS.set undef now pre cap p.1 p.2 none s).2 := by
  rw [LS.setList, LS.setList, List.foldl_cons]

theorem ls_setList_append (undef : α → Bool) (now : Nat) (pre : String)
    (cap : Option Nat) (xs ys : List (String × α)) (s : LSStorage α) :
    LS.setList undef now pre cap (xs ++ ys) s =
      LS.setList undef now pre cap ys (LS.setList undef now pre cap xs s) := by
  rw [LS.setList, LS.setList, LS.setList, List.foldl_append]

theorem fs_setList_cons (undef : α → Bool) (now : Nat) (cap : Option Nat)
    (p : String × α) (t : List (String × α)) (st : FSState α) :
    FS.setList undef now cap (p :: t) st =
      FS.setList undef now cap t (FS.set undef now cap p.1 p.2 none st).2 := by
  rw [FS.setList, FS.setList, List.foldl_cons]

theorem fs_setList_append (undef : α → Bool) (now : Nat) (cap : Option Nat)
    (xs ys : List (String × α)) (st : FSState α) :
    FS.setList undef now cap (xs ++ ys) st =
      FS.setList undef now cap ys (FS.setList undef now cap xs st) := by
  rw [FS.setList, FS.setList, FS.setList, List.foldl_append]

@[simp] theorem noUndef_app (v : α) : noUndef v = false := rfl

@[simp] theorem noUndef_store (v : α) :
    (if noUndef v then none else some v) = some v := rfl

@[simp] theorem except_map_ok {ε ρ τ : Type} (f : ρ → τ) (a : ρ) :
    (Except.ok a : Except ε ρ).map f = Except.ok (f a) := rfl

@[simp] theorem except_map_error {ε ρ τ : Type} (f : ρ → τ) (e : ε) :
    (Except.error e : Except ε ρ).map f = Except.error e := rfl

@[simp] theorem alookup_nil (k : String) : alookup k ([] : List (String × β)) = none := rfl

theorem alookup_cons (k : String) (p : String × β) (t : List (String × β)) :
    alookup k (p :: t) = if p.1 = k then some p.2 else alookup k t := rfl

theorem aerase_cons (k : String) (p : String × β) (t : List (String × β)) :
    aerase k (p :: t) = if p.1 = k then aerase k t else p :: aerase k t := by
  by_cases hp : p.1 = k <;> simp [aerase, hp]

@[simp] theorem alookup_aset_self (k : String) (v : β) (l : List (String × β)) :
    alookup k (aset k v l) = some v := by
  induction l with
  | nil => simp [aset, alookup_cons]
  | cons p t ih =>
    by_cases h : p.1 = k
    · simp [aset, h, alookup_cons]
    · simp [aset, h, alookup_cons, ih]

theorem alookup_aset_ne {k q : String} (h : q ≠ k) (v : β) (l : List (String × β)) :
    alookup q (aset k v l) = alookup q l := by
  have hkq : ¬ k = q := fun he => h he.symm
  induction l with
  | nil => simp [aset, alookup_cons, hkq]
  | cons p t ih =>
    by_cases hp : p.1 = k
    · subst hp
      have hq : ¬ p.1 = q := hkq
      simp [aset, alookup_cons, hq]
    · simp [aset, hp, alookup_cons, ih]

@[simp] theorem alookup_aerase_self (k : String) (l : List (String × β)) :
    alookup k (aerase k l) = none := by
  induction l with
  | nil => rfl
  | cons p t ih =>
    rw [aerase_cons]
    by_cases hp : p.1 = k
    · simpa [hp] using ih
    · simpa [hp, alookup_cons] using ih

theorem alookup_aerase_ne {k q : String} (h : q ≠ k) (l : List (String × β)) :
    alookup q (aerase k l) = alookup q l := by
  induction l with
  | nil => rfl
  | cons p t ih =>
    rw [aerase_cons]
    by_cases hp : p.1 = k
    · subst hp
      have hq : ¬ p.1 = q := fun he => h he.symm
      simp [alookup_cons, hq, ih]
    · simp [hp, alookup_cons, ih]

theorem aset_absent {k : String} {l : List (String × β)} (h : alookup k l = none) (v : β) :
    aset k v l = l ++ [(k, v)] := by
  induction l with
  | nil => rfl
  | cons p t ih =>
    rw [alookup_cons] at h
    by_cases hp : p.1 = k
    · simp [hp] at h
    · simp only [hp, if_false] at h
      simp [aset, hp, ih h]

theorem aerase_absent {k : String} {l : List (String × β)} (h : alookup k l = none) :
    aerase k l = l := by
  induction l with
  | nil => rfl
  | cons p t ih =>
    rw [alookup_cons] at h
    by_cases hp : p.1 = k
    · simp [hp] at h
    · simp only [hp, if_false] at h
      rw [aerase_cons, if_neg hp, ih h]

theorem alookup_kmap_of_not_mem (keyf : String × α → String) (f : String × α → β)
    {k : String} {ps : List (String × α)} (h : k ∉ ps.map keyf) :
    alookup k (ps.map fun p => (keyf p, f p)) = none := by
  induction ps with
  | nil => rfl
  | cons p t ih =>
    rw [List.map_cons, List.mem_cons] at h
    push_neg at h
    have h1 : ¬ keyf p = k := fun he => h.1 he.symm
    rw [List.map_cons, alookup_cons]
    simp only [h1, if_false]
    exact ih h.2

theorem alookup_kmap_of_mem (keyf : String × α → String) (f : String × α → β)
    {p : String × α} {ps : List (String × α)} (hnd : (ps.map keyf).Nodup)
    (hp : p ∈ ps) :
    alookup (keyf p) (ps.map fun q => (keyf q, f q)) = some (f p) := by
  induction ps with
  | nil => simp at hp
  | cons q t ih =>
    rw [List.map_cons, List.nodup_cons] at hnd
    rcases List.mem_cons.mp hp with h | h
    · subst h; simp [alookup_cons]
    · have hq : ¬ keyf q = keyf p := by
        intro he
        exact hnd.1 (he ▸ List.mem_map_of_mem keyf h)
      rw [List.map_cons, alookup_cons]
      simp only [hq, if_false]
      exact ih hnd.2 h

theorem aerase_kmap_head (keyf : String × α → String) (f : String × α → β)
    (p0 : String × α) {mid : List (String × α)} (h : keyf p0 ∉ mid.map keyf) :
    aerase (keyf p0) ((p0 :: mid).map fun q => (keyf q, f q)) =
      mid.map fun q => (keyf q, f q) := by
  have habs : alookup (keyf p0) (mid.map fun q => (keyf q, f q)) = none :=
    alookup_kmap_of_not_mem keyf f h
  rw [List.map_cons, aerase_cons, if_pos rfl]
  exact aerase_absent habs

theorem alookup_map_of_not_mem (f : String × α → β) {k : String}
    {ps : List (String × α)} (h : k ∉ ps.map Prod.fst) :
    alookup k (ps.map fun p => (p.1, f p)) = none :=
  alookup_kmap_of_not_mem Prod.fst f h

theorem alookup_map_of_mem (f : String × α → β) {p : String × α}
    {ps : List (String × α)} (hnd : (ps.map Prod.fst).Nodup) (hp : p ∈ ps) :
    alookup p.1 (ps.map fun q => (q.1, f q)) = some (f p) :=
  alookup_kmap_of_mem Prod.fst f hnd hp

theorem aerase_map_head (f : String × α → β) (p0 : String × α)
    {mid : List (String × α)} (h : p0.1 ∉ mid.map Prod.fst) :
    aerase p0.1 ((p0 :: mid).map fun q => (q.1, f q)) = mid.map fun q => (q.1, f q) :=
  aerase_kmap_head Prod.fst f p0 h

theorem filter_ne_of_not_mem {k : String} {l : List String} (h : k ∉ l) :
    l.filter (fun x => decide (x ≠ k)) = l := by
  apply List.filter_eq_self.mpr
  intro x hx
  exact decide_eq_true (fun he => h (he ▸ hx))

theorem filter_ne_cons_self (k : String) (l : List String) :
    (k :: l).filter (fun x => decide (x ≠ k)) = l.filter (fun x => decide (x ≠ k)) := by
  rw [List.filter_cons]
  simp

theorem alookup_mem {k : String} {v : β} {l : List (String × β)}
    (h : alookup k l = some v) : (k, v) ∈ l := by
  induction l with
  | nil => simp [alookup] at h
  | cons p t ih =>
    rw [alookup_cons] at h
    by_cases hp : p.1 = k
    · rw [if_pos hp] at h
      injection h with h2
      apply List.mem_cons.mpr
      left
      rw [← hp, ← h2]
    · rw [if_neg hp] at h
      exact List.mem_cons_of_mem p (ih h)

theorem mem_aset {k : String} {v : β} {l : List (String × β)} {q : String × β}
    (h : q ∈ aset k v l) : q = (k, v) ∨ q ∈ l := by
  induction l with
  | nil => simpa [aset] using h
  | cons p t ih =>
    rw [aset] at h
    by_cases hp : p.1 = k
    · rw [if_pos hp] at h
      rcases List.mem_cons.mp h with h1 | h1
      · exact Or.inl h1
      · exact Or.inr (List.mem_cons_of_mem p h1)
    · rw [if_neg hp] at h
      rcases List.mem_cons.mp h with h1 | h1
      · exact Or.inr (h1 ▸ List.mem_cons_self p t)
      · rcases ih h1 with h2 | h2
        · exact Or.inl h2
        · exact Or.inr (List.mem_cons_of_mem p h2)

theorem isSome_alookup_aset {k q : String} (v : β) {l : List (String × β)}
    (h : (alookup q l).isSome = true) : (alookup q (aset k v l)).isSome = true := by
  by_cases hq : q = k
  · subst hq
    rw [alookup_aset_self]
    rfl
  · rwa [alookup_aset_ne hq]

theorem foldl_fixed {σ τ : Type} {f : σ → τ → σ} {l : List τ}
    (h : ∀ acc p, p ∈ l → f acc p = acc) (a : σ) : l.foldl f a = a := by
  induction l generalizing a with
  | nil => rfl
  | cons p t ih =>
    rw [List.foldl_cons, h a p (List.mem_cons_self p t)]
    exact ih (fun acc q hq => h acc q (List.mem_cons_of_mem p hq)) a

@[simp] theorem jsExpired_none (now : Nat) : jsExpired now none = false := rfl

@[simp] theorem jsExpiry_none (now : Nat) : jsExpiry now none = none := rfl

@[simp] theorem capLT_none (n : Nat) : capLT none n = false := rfl

@[simp] theorem capLE_none (n : Nat) : capLE none n = false := rfl

theorem capLT_of_capLE {cap : Option Nat} {n : Nat} (h : capLE cap n = false) :
    capLT cap n = false := by
  cases cap with
  | none => rfl
  | some m =>
    simp only [capLE, decide_eq_false_iff_not, Nat.not_le] at h
    simp only [capLT, decide_eq_false_iff_not, Nat.not_lt]
    exact Nat.le_of_lt h

theorem capLE_mono {cap : Option Nat} {i j : Nat} (hij : i ≤ j)
    (h : capLE cap j = false) : capLE cap i = false := by
  cases cap with
  | none => rfl
  | some m =>
    simp only [capLE, decide_eq_false_iff_not, Nat.not_le] at h ⊢
    exact Nat.lt_of_le_of_lt hij h

theorem jsCapacity_pos {n : Nat} (hn : 0 < n) : jsCapacity (some n) = some n := by
  cases n with
  | zero => exact absurd hn (Nat.lt_irrefl 0)
  | succ m => rfl

theorem jsExpiry_pos {now d : Nat} (hd : 0 < d) : jsExpiry now (some d) = some (now + d) := by
  cases d with
  | zero => exact absurd hd (Nat.lt_irrefl 0)
  | succ m => rfl

theorem jsExpired_shifted (now now0 d : Nat) (hd : 0 < d) :
    jsExpired now (some (now0 + d)) = decide (now0 + d ≤ now) := by
  have : ¬ now0 + d = 0 := by omega
  simp [jsExpired, this]

theorem append_left_cancel {a b c : String} (h : a ++ b = a ++ c) : b = c := by
  have hd := congrArg String.data h
  rw [String.data_append, String.data_append] at hd
  exact String.ext (List.append_cancel_left hd)

theorem append_ne_of_ne {a : String} {b c : String} (h : b ≠ c) : a ++ b ≠ a ++ c :=
  fun he => h (append_left_cancel he)

theorem hash_inj {a b : String} (h : FS.hash a = FS.hash b) : a = b :=
  append_left_cancel h

theorem hash_ne_of_head {k s : String} (h : s.data.head? ≠ some '#') : FS.hash k ≠ s := by
  intro he
  apply h
  rw [← he, FS.hash, String.data_append]
  rfl

theorem hash_ne_empty (k : String) : FS.hash k ≠ "" := by
  intro he
  have hd := congrArg String.data he
  rw [FS.hash, String.data_append] at hd
  exact List.cons_ne_nil _ _ hd

theorem contains_eq_decide_mem (k : String) (l : List String) :
    l.contains k = decide (k ∈ l) := by
  induction l with
  | nil => rfl
  | cons x t ih =>
    by_cases hx : k = x
    · subst hx
      simp [List.contains_cons]
    · simp [List.contains_cons, hx, ih]

theorem addMissing_nil (base : List String) : FS.addMissing base [] = base := rfl

theorem addMissing_append (base v1 v2 : List String) :
    FS.addMissing base (v1 ++ v2) = FS.addMissing (FS.addMissing base v1) v2 :=
  List.foldl_append _ _ _ _

theorem addMissing_contained {base vs : List String} (h : ∀ x ∈ vs, x ∈ base) :
    FS.addMissing base vs = base := by
  induction vs with
  | nil => rfl
  | cons x t ih =>
    have hxm : x ∈ base := h x (List.mem_cons_self x t)
    have hstep : FS.addMissing base (x :: t) = FS.addMissing base t := by
      simp [FS.addMissing, hxm]
    rw [hstep]
    exact ih (fun y hy => h y (List.mem_cons_of_mem x hy))

theorem addMissing_single_new {base : List String} {x : String} (h : x ∉ base) :
    FS.addMissing base [x] = base ++ [x] := by
  simp [FS.addMissing, h]

theorem memory_evictLoop_noop {cap : Option Nat} {store : List (String × CacheEntry α)}
    {order : List String} (h : capLT cap store.length = false) :
    Memory.evictLoop cap order store = (order, store) := by
  cases order with
  | nil => rfl
  | cons k rest => simp [Memory.evictLoop, h]

theorem fs_evictLoop_noop {cap : Option Nat} {files : List (String × Content α)}
    {order : List String} (h : capLT cap order.length = false) :
    FS.evictLoop cap order files = (order, files) := by
  cases order with
  | nil => rfl
  | cons k rest =>
    rw [List.length_cons] at h
    simp [FS.evictLoop, h]

theorem cleanupScan_live {now : Nat} {l : List (String × Content α)}
    (h : ∀ p ∈ l, ∃ e, p.2 = .ent e ∧ jsExpired now e.expiry = false) :
    ∀ fs vs, l.foldl (FS.cleanupScan now) (fs, vs) = (fs, vs ++ l.map Prod.fst) := by
  induction l with
  | nil => intro fs vs; simp
  | cons p t ih =>
    intro fs vs
    obtain ⟨e, he, hlive⟩ := h p (List.mem_cons_self p t)
    rw [List.foldl_cons]
    have hstep : FS.cleanupScan now (fs, vs) p = (fs, vs ++ [p.1]) := by
      rw [FS.cleanupScan, he]
      simp [hlive]
    rw [hstep, ih (fun q hq => h q (List.mem_cons_of_mem p hq))]
    simp

end Toolkit

section MemoryInvariant

variable {α : Type}

theorem alookup_map_isSome (f : String × α → β) {k : String}
    {ps : List (String × α)} (h : k ∈ ps.map Prod.fst) :
    (alookup k (ps.map fun p => (p.1, f p))).isSome = true := by
  induction ps with
  | nil => simp at h
  | cons p t ih =>
    rw [List.map_cons, alookup_cons]
    by_cases hp : p.1 = k
    · simp [hp]
    · rw [List.map_cons, List.mem_cons] at h
      rcases h with h | h

      · exact absurd h.symm hp
      · simp only [hp, if_false]
        exact ih h

theorem memory_expire_fixed {now : Nat} {l : List (String × CacheEntry α)}
    (h : ∀ q ∈ l, q.2.expiry = none) (st : MemoryState α) :
    l.foldl (Memory.expireStep now) st = st :=
  foldl_fixed (fun acc q hq => by simp [Memory.expireStep, h q hq]) st

theorem memory_cleanup_clean (now : Nat) (cap : Option Nat) (ps : List (String × α))
    (hcap : capLT cap ps.length = false) :
    Memory.cleanup now cap (Memory.cleanState now ps) = Memory.cleanState now ps := by
  rw [Memory.cleanup]
  have horder : (Memory.cleanState now (α := α) ps).accessOrder.filter
      (fun k => (alookup k (Memory.cleanState now ps).store).isSome) =
      ps.map Prod.fst := by
    apply List.filter_eq_self.mpr
    intro k hk
    exact alookup_map_isSome (entryOf now) hk
  have hexp : ∀ q ∈ (Memory.cleanState now (α := α) ps).store, q.2.expiry = none := by
    intro q hq
    rw [Memory.cleanState] at hq
    obtain ⟨p, _, hpq⟩ := List.mem_map.mp hq
    rw [← hpq]
    rfl
  have hlen : (Memory.cleanState now (α := α) ps).store.length = ps.length :=
    List.length_map _ _
  simp only [horder]
  rw [memory_expire_fixed hexp]
  have hnoev : Memory.evictLoop cap (ps.map Prod.fst)
      (Memory.cleanState now (α := α) ps).store =
      (ps.map Prod.fst, (Memory.cleanState now ps).store) := by
    apply memory_evictLoop_noop
    rw [hlen]
    exact hcap
  simp only [Memory.cleanState] at hnoev ⊢
  rw [hnoev]

theorem memory_set_clean (now : Nat) (cap : Option Nat) {ps : List (String × α)}
    {k : String} (v : α) (hk : k ∉ ps.map Prod.fst)
    (hcap : capLE cap ps.length = false) :
    Memory.set now cap k v none (Memory.cleanState now ps) =
      Memory.cleanState now (ps ++ [(k, v)]) := by
  rw [Memory.set]
  rw [memory_cleanup_clean now cap ps (capLT_of_capLE hcap)]
  have hguard : capLE cap (Memory.cleanState now (α := α) ps).store.length = false := by
    rw [Memory.cleanState]
    simp only [List.length_map]
    exact hcap
  rw [if_neg (by simp [hguard])]
  have habs : alookup k (Memory.cleanState now (α := α) ps).store = none :=
    alookup_map_of_not_mem (entryOf now) hk
  rw [Memory.cleanState]
  simp only [Memory.cleanState] at habs
  rw [aset_absent habs, Memory.updateAccessOrder, filter_ne_of_not_mem hk]
  rw [Memory.cleanState, List.map_append, List.map_append]
  rfl

theorem memory_setList_clean (now : Nat) (cap : Option Nat) :
    ∀ (rest ps : List (String × α)),
      ((ps ++ rest).map Prod.fst).Nodup →
      (∀ j, j < (ps ++ rest).length → capLE cap j = false) →
      Memory.setList now cap rest (Memory.cleanState now ps) =
        Memory.cleanState now (ps ++ rest) := by
  intro rest
  induction rest with
  | nil =>
    intro ps _ _
    simp [Memory.setList]
  | cons p t ih =>
    intro ps hnd hcap
    have hmemkeys : (ps ++ p :: t).map Prod.fst =
        ps.map Prod.fst ++ p.1 :: t.map Prod.fst := by
      rw [List.map_append, List.map_cons]
    have hk : p.1 ∉ ps.map Prod.fst := by
      rw [hmemkeys] at hnd
      have hdisj := (List.nodup_append.mp hnd).2.2
      intro hmem
      exact hdisj hmem (List.mem_cons_self p.1 _)
    have hstep : Memory.set now cap p.1 p.2 none (Memory.cleanState now ps) =
        Memory.cleanState now (ps ++ [p]) := by
      have := memory_set_clean now cap p.2 hk
        (hcap ps.length (by simp [List.length_append]))
      simpa using this
    have hassoc : (ps ++ [p]) ++ t = ps ++ p :: t := by
      simp
    rw [memory_setList_cons, hstep,
      ih (ps ++ [p]) (by rw [hassoc]; exact hnd) (by rw [hassoc]; exact hcap), hassoc]

theorem memory_set_evict (now n : Nat) (p0 : String × α)
    (mid : List (String × α)) (k : String) (v : α)
    (hn : n = mid.length + 1)
    (hnd : ((p0 :: mid).map Prod.fst).Nodup)
    (hk : k ∉ (p0 :: mid).map Prod.fst)
    (h0 : p0.1 ≠ "") :
    Memory.set now (some n) k v none (Memory.cleanState now (p0 :: mid)) =
      Memory.cleanState now (mid ++ [(k, v)]) := by
  have hlen : (p0 :: mid).length = n := by simp [hn]
  rw [Memory.set]
  rw [memory_cleanup_clean now (some n) (p0 :: mid)
    (by rw [hlen]; simp [capLT])]
  have hstlen : (Memory.cleanState now (α := α) (p0 :: mid)).store.length = n := by
    simp [Memory.cleanState, hn]
  have habs : alookup k (Memory.cleanState now (α := α) (p0 :: mid)).store = none :=
    alookup_map_of_not_mem (entryOf now) hk
  rw [if_pos (by simp [capLE, hstlen, habs])]
  have hmid : p0.1 ∉ mid.map Prod.fst := by
    rw [List.map_cons, List.nodup_cons] at hnd
    exact hnd.1
  have hkmid : k ∉ mid.map Prod.fst := by
    intro hm
    exact hk (by rw [List.map_cons]; exact List.mem_cons_of_mem _ hm)
  have horder : (Memory.cleanState now (α := α) (p0 :: mid)).accessOrder =
      p0.1 :: mid.map Prod.fst := by
    simp [Memory.cleanState]
  rw [horder]
  simp only [h0, if_false]
  have herase : aerase p0.1 (Memory.cleanState now (α := α) (p0 :: mid)).store =
      mid.map fun q => (q.1, entryOf now q) := by
    rw [Memory.cleanState]
    exact aerase_map_head (entryOf now) p0 hmid
  have habs2 : alookup k (mid.map fun q => (q.1, entryOf now q)) = none :=
    alookup_map_of_not_mem (entryOf now) hkmid
  rw [Memory.cleanState]
  simp only [Memory.cleanState] at herase
  rw [herase, aset_absent habs2, Memory.updateAccessOrder, filter_ne_of_not_mem hkmid]
  rw [Memory.cleanState, List.map_append, List.map_append]
  rfl

theorem memory_get_clean_miss (now now2 : Nat) {ps : List (String × α)} {k : String}
    (h : k ∉ ps.map Prod.fst) :
    Memory.get now2 k (Memory.cleanState now ps) = (none, Memory.cleanState now ps) := by
  have habs : alookup k (Memory.cleanState now (α := α) ps).store = none :=
    alookup_map_of_not_mem (entryOf now) h
  rw [Memory.get, habs]

theorem memory_get_clean_hit (now now2 : Nat) {ps : List (String × α)} {p : String × α}
    (hnd : (ps.map Prod.fst).Nodup) (hp : p ∈ ps) :
    (Memory.get now2 p.1 (Memory.cleanState now ps)).1 = some p.2 := by
  have hsome : alookup p.1 (Memory.cleanState now (α := α) ps).store =
      some (entryOf now p) := alookup_map_of_mem (entryOf now) hnd hp
  rw [Memory.get, hsome]
  simp [entryOf]

end MemoryInvariant

section LSInvariant

variable {α : Type}

theorem ls_inv_init (now : Nat) (pre : String) :
    LS.inv (α := α) now pre [] [] := ⟨rfl, by simp⟩

theorem ls_getOrder_setOrder (pre : String) (l : List String) (s : LSStorage α) :
    LS.getAccessOrder pre (LS.setAccessOrder pre l s) = some l := by
  rw [LS.getAccessOrder, LS.setAccessOrder, alookup_aset_self]

theorem ls_getOrder_aset_ne (pre : String) {k : String} (h : k ≠ LS.orderKey pre)
    (c : Content α) (s : LSStorage α) :
    LS.getAccessOrder pre (aset k c s) = LS.getAccessOrder pre s := by
  rw [LS.getAccessOrder, LS.getAccessOrder, alookup_aset_ne (Ne.symm h)]

theorem ls_getOrder_aerase_ne (pre : String) {k : String} (h : k ≠ LS.orderKey pre)
    (s : LSStorage α) :
    LS.getAccessOrder pre (aerase k s) = LS.getAccessOrder pre s := by
  rw [LS.getAccessOrder, LS.getAccessOrder, alookup_aerase_ne (Ne.symm h)]

theorem ls_getOrder_aerase_isSome {pre : String} {s : LSStorage α}
    (h : (LS.getAccessOrder pre s).isSome = true) (q : String) :
    (LS.getAccessOrder pre (aerase q s)).isSome = true := by
  by_cases hq : q = LS.orderKey pre
  · subst hq
    rw [LS.getAccessOrder, alookup_aerase_self]
    rfl
  · rw [ls_getOrder_aerase_ne pre hq]
    exact h

theorem entry_ne_orderKey (pre : String) {k : String} (h : k ≠ "__access_order") :
    pre ++ k ≠ LS.orderKey pre :=
  append_ne_of_ne h

theorem ls_rfs_eq {pre key : String} {s : LSStorage α} {l : List String}
    (h : LS.getAccessOrder pre (aerase (pre ++ key) s) = some l) :
    LS.removeFromStorage pre key s =
      (Except.ok (), LS.setAccessOrder pre (l.filter (fun x => decide (x ≠ key)))
        (aerase (pre ++ key) s)) := by
  rw [LS.removeFromStorage, h]

theorem ls_rfs_ok {pre : String} {s : LSStorage α}
    (h : (LS.getAccessOrder pre s).isSome = true) (key : String) :
    (LS.removeFromStorage pre key s).1 = Except.ok () ∧
    (LS.getAccessOrder pre (LS.removeFromStorage pre key s).2).isSome = true := by
  have h1 := ls_getOrder_aerase_isSome h (pre ++ key)
  cases hc : LS.getAccessOrder pre (aerase (pre ++ key) s) with
  | none => rw [hc] at h1; simp at h1
  | some l =>
    rw [ls_rfs_eq hc]
    exact ⟨rfl, by rw [ls_getOrder_setOrder]; rfl⟩

theorem ls_rfs_lookup {x k : String} (pre : String) (hxk : x ≠ k)
    (hkres : k ≠ "__access_order") (s : LSStorage α) :
    alookup (pre ++ k) (LS.removeFromStorage pre x s).2 = alookup (pre ++ k) s := by
  have hne : pre ++ k ≠ pre ++ x := append_ne_of_ne (Ne.symm hxk)
  rw [LS.removeFromStorage]
  cases hc : LS.getAccessOrder pre (aerase (pre ++ x) s) with
  | none =>
    simp only []
    rw [alookup_aerase_ne hne]
  | some l =>
    simp only []
    rw [LS.setAccessOrder, alookup_aset_ne (entry_ne_orderKey pre hkres),
      alookup_aerase_ne hne]

theorem ls_uao_some {pre : String} {s : LSStorage α} {l : List String}
    (cap : Option Nat) (key : String)
    (hord : LS.getAccessOrder pre s = some l) :
    LS.updateAccessOrder pre cap key s =
      (if capLT cap ((l.filter (fun x => decide (x ≠ key)) ++ [key]).length) then
        match l.filter (fun x => decide (x ≠ key)) ++ [key] with
        | [] => (Except.ok (), LS.setAccessOrder pre [] s)
        | oldest :: rest =>
          if oldest = "" then (Except.ok (), LS.setAccessOrder pre rest s)
          else
            match LS.removeFromStorage pre oldest s with
            | (Except.ok _, s1) => (Except.ok (), LS.setAccessOrder pre rest s1)
            | (Except.error _, s1) => (Except.error (), s1)
      else
        (Except.ok (), LS.setAccessOrder pre
          (l.filter (fun x => decide (x ≠ key)) ++ [key]) s)) := by
  rw [LS.updateAccessOrder, hord]

theorem ls_uao_noevict {pre : String} {s : LSStorage α} {l : List String}
    (cap : Option Nat) (key : String)
    (hord : LS.getAccessOrder pre s = some l)
    (hcap : capLT cap ((l.filter (fun x => decide (x ≠ key)) ++ [key]).length)
      = false) :
    LS.updateAccessOrder pre cap key s =
      (Except.ok (), LS.setAccessOrder pre
        (l.filter (fun x => decide (x ≠ key)) ++ [key]) s) := by
  rw [ls_uao_some cap key hord, if_neg (by rw [hcap]; exact Bool.false_ne_true)]

theorem ls_uao_evict {pre : String} {s : LSStorage α} {l : List String}
    (cap : Option Nat) (key : String) {x : String} {rest : List String}
    (hord : LS.getAccessOrder pre s = some l)
    (hf : l.filter (fun y => decide (y ≠ key)) = x :: rest)
    (hc : capLT cap ((x :: (rest ++ [key])).length) = true) (hx : x ≠ "")
    {l2 : List String}
    (hord2 : LS.getAccessOrder pre (aerase (pre ++ x) s) = some l2) :
    LS.updateAccessOrder pre cap key s =
      (Except.ok (), LS.setAccessOrder pre (rest ++ [key])
        (LS.setAccessOrder pre (l2.filter (fun y => decide (y ≠ x)))
          (aerase (pre ++ x) s))) := by
  have horder : l.filter (fun y => decide (y ≠ key)) ++ [key] =
      x :: (rest ++ [key]) := by
    rw [hf, List.cons_append]
  rw [ls_uao_some cap key hord, horder, if_pos hc]
  split
  · next heq => exact absurd heq (by simp)
  · next oldest rest2 heq =>
    injection heq with h1 h2
    subst h1
    subst h2
    rw [if_neg hx, ls_rfs_eq hord2]

theorem ls_uao_ok {pre : String} {s : LSStorage α}
    (h : (LS.getAccessOrder pre s).isSome = true) (cap : Option Nat) (key : String) :
    (LS.updateAccessOrder pre cap key s).1 = Except.ok () ∧
    (LS.getAccessOrder pre (LS.updateAccessOrder pre cap key s).2).isSome = true := by
  cases hc : LS.getAccessOrder pre s with
  | none => rw [hc] at h; simp at h
  | some l =>
    rw [ls_uao_some cap key hc]
    by_cases hcap :
        capLT cap ((l.filter (fun x => decide (x ≠ key)) ++ [key]).length) = true
    · rw [if_pos hcap]
      split
      · next heq => exact absurd heq (by simp)
      · next oldest rest heq =>
        by_cases hx : oldest = ""
        · rw [if_pos hx]
          exact ⟨rfl, by rw [ls_getOrder_setOrder]; rfl⟩
        · rw [if_neg hx]
          have hrfs := ls_rfs_ok h oldest
          split
          · next u s1 hr =>
            rw [hr] at hrfs
            exact ⟨rfl, by rw [ls_getOrder_setOrder]; rfl⟩
          · next u s1 hr =>
            rw [hr] at hrfs
            exact absurd hrfs.1 (by simp)
    · rw [if_neg hcap]
      exact ⟨rfl, by rw [ls_getOrder_setOrder]; rfl⟩

theorem ls_uao_lookup (pre : String) (cap : Option Nat) {k : String}
    (s : LSStorage α) (hkres : k ≠ "__access_order")
    (hcap1 : capLT cap 1 = false) :
    alookup (pre ++ k) (LS.updateAccessOrder pre cap k s).2 =
      alookup (pre ++ k) s := by
  cases hc : LS.getAccessOrder pre s with
  | none =>
    rw [LS.updateAccessOrder, hc]
  | some l =>
    rw [ls_uao_some cap k hc]
    by_cases hcap :
        capLT cap ((l.filter (fun x => decide (x ≠ k)) ++ [k]).length) = true
    · rw [if_pos hcap]
      split
      · next heq => exact absurd heq (by simp)
      · next x rest heq =>
        cases hf : l.filter (fun y => decide (y ≠ k)) with
        | nil =>
          rw [hf] at hcap
          simp [hcap1] at hcap
        | cons y t =>
          rw [hf, List.cons_append] at heq
          injection heq with hyx hrest
          have hx : x ≠ k := by
            have hmem : y ∈ l.filter (fun z => decide (z ≠ k)) := by
              rw [hf]
              exact List.mem_cons_self _ _
            have hy := List.of_mem_filter hmem
            rw [hyx] at hy
            simpa using hy
          by_cases hxe : x = ""
          · rw [if_pos hxe]
            rw [LS.setAccessOrder, alookup_aset_ne (entry_ne_orderKey pre hkres)]
          · rw [if_neg hxe]
            have h2 : alookup (pre ++ k) (LS.removeFromStorage pre x s).2 =
                alookup (pre ++ k) s := ls_rfs_lookup pre hx hkres s
            split
            · next u s1 hr =>
              rw [hr] at h2
              rw [LS.setAccessOrder, alookup_aset_ne (entry_ne_orderKey pre hkres)]
              exact h2
            · next u s1 hr =>
              rw [hr] at h2
              exact h2
    · rw [if_neg hcap]
      rw [LS.setAccessOrder, alookup_aset_ne (entry_ne_orderKey pre hkres)]

theorem ls_set_of_uao {undef : α → Bool} {now : Nat} {pre : String}
    {cap : Option Nat} {key : String} {v : α} {ttl : Option Nat}
    {s s2 : LSStorage α}
    (h : LS.updateAccessOrder pre cap key (aset (pre ++ key)
        (.ent ⟨if undef v then none else some v, now, jsExpiry now ttl⟩) s) =
      (Except.ok (), s2)) :
    LS.set undef now pre cap key v ttl s = (Except.ok (), s2) := by
  rw [LS.set, h]

theorem ls_set_snd (undef : α → Bool) (now : Nat) (pre : String)
    (cap : Option Nat) (key : String) (v : α) (ttl : Option Nat)
    (s : LSStorage α) :
    (LS.set undef now pre cap key v ttl s).2 =
      (LS.updateAccessOrder pre cap key (aset (pre ++ key)
        (.ent ⟨if undef v then none else some v, now, jsExpiry now ttl⟩) s)).2 := by
  rw [LS.set]
  cases hu : LS.updateAccessOrder pre cap key (aset (pre ++ key)
      (.ent ⟨if undef v then none else some v, now, jsExpiry now ttl⟩) s) with
  | mk e1 s1 => cases e1 <;> rfl

theorem ls_set_ok (undef : α → Bool) (now : Nat) (pre : String)
    (cap : Option Nat) (k : String) (v : α) (ttl : Option Nat) {s : LSStorage α}
    (h : (LS.getAccessOrder pre s).isSome = true) (hkres : k ≠ "__access_order") :
    (LS.set undef now pre cap k v ttl s).1 = Except.ok () ∧
    (LS.getAccessOrder pre (LS.set undef now pre cap k v ttl s).2).isSome = true := by
  have h1 : (LS.getAccessOrder pre (aset (pre ++ k)
      (.ent ⟨if undef v then none else some v, now, jsExpiry now ttl⟩) s)).isSome
      = true := by
    rw [ls_getOrder_aset_ne pre (entry_ne_orderKey pre hkres)]
    exact h
  have hu := ls_uao_ok h1 cap k
  rw [LS.set]
  cases hc : LS.updateAccessOrder pre cap k (aset (pre ++ k)
      (.ent ⟨if undef v then none else some v, now, jsExpiry now ttl⟩) s) with
  | mk e1 s1 =>
    rw [hc] at hu
    cases e1 with
    | ok u => exact ⟨rfl, hu.2⟩
    | error u => exact absurd hu.1 (by simp)

theorem ls_set_under (now : Nat) (pre : String) (cap : Option Nat)
    {ps : List (String × α)} {s : LSStorage α} {k : String} (v : α)
    (hinv : LS.inv now pre ps s)
    (hk : k ∉ ps.map Prod.fst) (hkres : k ≠ "__access_order")
    (hres : ∀ p ∈ ps, p.1 ≠ "__access_order")
    (hcap : capLT cap (ps.length + 1) = false) :
    LS.inv now pre (ps ++ [(k, v)]) (LS.set noUndef now pre cap k v none s).2 := by
  have hord1 : LS.getAccessOrder pre
      (aset (pre ++ k) (.ent ⟨if noUndef v then none else some v, now,
        jsExpiry now none⟩) s) = some (ps.map Prod.fst) := by
    rw [ls_getOrder_aset_ne pre (entry_ne_orderKey pre hkres), hinv.1]
  have hfilt : (ps.map Prod.fst).filter (fun x => decide (x ≠ k)) =
      ps.map Prod.fst := filter_ne_of_not_mem hk
  have hlen : ((ps.map Prod.fst).filter (fun x => decide (x ≠ k)) ++ [k]).length =
      ps.length + 1 := by
    rw [hfilt]
    simp
  have huao := ls_uao_noevict cap k hord1 (by rw [hlen]; exact hcap)
  rw [ls_set_snd, huao]
  simp only [hfilt]
  constructor
  · rw [ls_getOrder_setOrder, List.map_append]
    rfl
  · intro p hp
    rcases List.mem_append.mp hp with hmem | hmem
    · have hne1 : pre ++ p.1 ≠ LS.orderKey pre := entry_ne_orderKey pre (hres p hmem)
      have hne2 : p.1 ≠ k := fun he => hk (he ▸ List.mem_map_of_mem Prod.fst hmem)
      rw [LS.setAccessOrder, alookup_aset_ne hne1,
        alookup_aset_ne (append_ne_of_ne hne2), hinv.2 p hmem]
    · have hpk : p = (k, v) := by simpa using hmem
      subst hpk
      rw [LS.setAccessOrder, alookup_aset_ne (entry_ne_orderKey pre hkres),
        alookup_aset_self]
      rfl

theorem ls_setList_under (now : Nat) (pre : String) (cap : Option Nat) :
    ∀ (rest ps : List (String × α)) (s : LSStorage α),
      LS.inv now pre ps s →
      ((ps ++ rest).map Prod.fst).Nodup →
      (∀ p ∈ ps ++ rest, p.1 ≠ "__access_order") →
      (∀ j, j < (ps ++ rest).length → capLT cap (j + 1) = false) →
      LS.inv now pre (ps ++ rest) (LS.setList noUndef now pre cap rest s) := by
  intro rest
  induction rest with
  | nil =>
    intro ps s hinv _ _ _
    simpa [LS.setList] using hinv
  | cons p t ih =>
    intro ps s hinv hnd hres hcap
    have hk : p.1 ∉ ps.map Prod.fst := by
      rw [List.map_append, List.map_cons] at hnd
      have hdisj := (List.nodup_append.mp hnd).2.2
      intro hmem
      exact hdisj hmem (List.mem_cons_self p.1 _)
    have hstep := ls_set_under now pre cap p.2 hinv hk
      (hres p (List.mem_append_right ps (List.mem_cons_self p t)))
      (fun q hq => hres q (List.mem_append_left _ hq))
      (hcap ps.length (by simp [List.length_append]))
    have hassoc : (ps ++ [p]) ++ t = ps ++ p :: t := by simp
    rw [ls_setList_cons]
    have := ih (ps ++ [p]) _ hstep (by rw [hassoc]; exact hnd)
      (by rw [hassoc]; exact hres) (by rw [hassoc]; exact hcap)
    rw [hassoc] at this
    exact this

theorem ls_set_evict (now : Nat) (pre : String) (n : Nat)
    (p0 : String × α) (mid : List (String × α)) {s : LSStorage α} (k : String)
    (v : α)
    (hinv : LS.inv now pre (p0 :: mid) s)
    (hn : n = mid.length + 1)
    (hnd : ((p0 :: mid).map Prod.fst).Nodup)
    (hk : k ∉ (p0 :: mid).map Prod.fst) (hkres : k ≠ "__access_order")
    (hres : ∀ p ∈ p0 :: mid, p.1 ≠ "__access_order")
    (h0 : p0.1 ≠ "") :
    alookup (pre ++ p0.1) (LS.set noUndef now pre (some n) k v none s).2 = none ∧
    LS.inv now pre (mid ++ [(k, v)]) (LS.set noUndef now pre (some n) k v none s).2 := by
  have h0res : p0.1 ≠ "__access_order" := hres p0 (List.mem_cons_self p0 mid)
  have hkeys : (p0 :: mid).map Prod.fst = p0.1 :: mid.map Prod.fst := by
    rw [List.map_cons]
  have hord1 : LS.getAccessOrder pre
      (aset (pre ++ k) (.ent ⟨if noUndef v then none else some v, now,
        jsExpiry now none⟩) s) = some (p0.1 :: mid.map Prod.fst) := by
    rw [ls_getOrder_aset_ne pre (entry_ne_orderKey pre hkres), hinv.1, hkeys]
  have hkne : ∀ q ∈ p0 :: mid, q.1 ≠ k :=
    fun q hq he => hk (he ▸ List.mem_map_of_mem Prod.fst hq)
  have hfilt : (p0.1 :: mid.map Prod.fst).filter (fun x => decide (x ≠ k)) =
      p0.1 :: mid.map Prod.fst := by
    apply filter_ne_of_not_mem
    rw [← hkeys]
    exact hk
  have h0mid : p0.1 ∉ mid.map Prod.fst := by
    rw [hkeys, List.nodup_cons] at hnd
    exact hnd.1
  have hkp0 : pre ++ k ≠ pre ++ p0.1 :=
    append_ne_of_ne (fun he => (hkne p0 (List.mem_cons_self p0 mid)) he.symm)
  have hord2 : LS.getAccessOrder pre (aerase (pre ++ p0.1)
      (aset (pre ++ k) (.ent ⟨if noUndef v then none else some v, now,
        jsExpiry now none⟩) s)) = some (p0.1 :: mid.map Prod.fst) := by
    rw [ls_getOrder_aerase_ne pre (entry_ne_orderKey pre h0res), hord1]
  have hcaptrue : capLT (some n) ((p0.1 :: (mid.map Prod.fst ++ [k])).length) =
      true := by
    simp [capLT, hn]
  have huao := ls_uao_evict (some n) k hord1 hfilt hcaptrue h0 hord2
  rw [ls_set_snd, huao]
  simp only [filter_ne_cons_self, filter_ne_of_not_mem h0mid]
  refine ⟨?_, ?_, ?_⟩
  · rw [LS.setAccessOrder, LS.setAccessOrder,
      alookup_aset_ne (entry_ne_orderKey pre h0res),
      alookup_aset_ne (entry_ne_orderKey pre h0res),
      alookup_aerase_self]
  · rw [ls_getOrder_setOrder, List.map_append]
    rfl
  · intro p hp
    rcases List.mem_append.mp hp with hmem | hmem
    · have hpmid : p ∈ p0 :: mid := List.mem_cons_of_mem p0 hmem
      have hne1 : pre ++ p.1 ≠ LS.orderKey pre := entry_ne_orderKey pre (hres p hpmid)
      have hnep0 : pre ++ p.1 ≠ pre ++ p0.1 := by
        apply append_ne_of_ne
        intro he
        exact h0mid (he ▸ List.mem_map_of_mem Prod.fst hmem)
      rw [LS.setAccessOrder, LS.setAccessOrder, alookup_aset_ne hne1,
        alookup_aset_ne hne1, alookup_aerase_ne hnep0,
        alookup_aset_ne (append_ne_of_ne (hkne p hpmid)), hinv.2 p hpmid]
    · have hpk : p = (k, v) := by simpa using hmem
      subst hpk
      rw [LS.setAccessOrder, LS.setAccessOrder,
        alookup_aset_ne (entry_ne_orderKey pre hkres),
        alookup_aset_ne (entry_ne_orderKey pre hkres),
        alookup_aerase_ne hkp0, alookup_aset_self]
      rfl

theorem ls_get_live_eq (now : Nat) (pre : String) (cap : Option Nat)
    {key : String} {s : LSStorage α} {e : CacheEntry (Option α)}
    (hlook : alookup (pre ++ key) s = some (.ent e))
    (hexp : jsExpired now e.expiry = false)
    (hok : (LS.updateAccessOrder pre cap key s).1 = Except.ok ()) :
    LS.get now pre cap key s =
      (Except.ok e.value, (LS.updateAccessOrder pre cap key s).2) := by
  rw [LS.get, hlook]
  simp only [hexp, Bool.false_eq_true, if_false]
  cases hu : LS.updateAccessOrder pre cap key s with
  | mk e1 s1 =>
    rw [hu] at hok
    cases e1 with
    | ok u => rfl
    | error u => exact absurd hok (by simp)

theorem ls_get_hit (now now2 : Nat) (pre : String) (cap : Option Nat)
    {ps : List (String × α)} {s : LSStorage α} {p : String × α}
    (hinv : LS.inv now pre ps s) (hp : p ∈ ps) :
    (LS.get now2 pre cap p.1 s).1 = Except.ok (some p.2) := by
  have hok := (ls_uao_ok (by rw [hinv.1]; rfl) cap p.1).1
  rw [ls_get_live_eq now2 pre cap (hinv.2 p hp) rfl hok]
  rfl

theorem ls_get_none (now2 : Nat) (pre : String) (cap : Option Nat)
    {s : LSStorage α} {k : String} (h : alookup (pre ++ k) s = none) :
    LS.get now2 pre cap k s = (Except.ok none, s) := by
  rw [LS.get, h]

theorem ls_get_no_throw (now : Nat) (pre : String) (cap : Option Nat) (k : String)
    {s : LSStorage α} (h : (LS.getAccessOrder pre s).isSome = true) :
    ∃ r, (LS.get now pre cap k s).1 = Except.ok r := by
  have hrfs := ls_rfs_ok h k
  have huao := ls_uao_ok h cap k
  rw [LS.get]
  cases hc : alookup (pre ++ k) s with
  | none => exact ⟨none, rfl⟩
  | some c =>
    cases c with
    | bad =>
      cases hr : LS.removeFromStorage pre k s with
      | mk e1 s1 =>
        rw [hr] at hrfs
        cases e1 with
        | ok u => exact ⟨none, rfl⟩
        | error u => exact absurd hrfs.1 (by simp)
    | ord l =>
      cases hu : LS.updateAccessOrder pre cap k s with
      | mk e1 s1 =>
        rw [hu] at huao
        cases e1 with
        | ok u => exact ⟨none, rfl⟩
        | error u => exact absurd huao.1 (by simp)
    | ent e =>
      cases hexp : jsExpired now e.expiry with
      | true =>
        simp only [hexp, if_true]
        cases hr : LS.removeFromStorage pre k s with
        | mk e1 s1 =>
          rw [hr] at hrfs
          cases e1 with
          | ok u => exact ⟨none, rfl⟩
          | error u => exact absurd hrfs.1 (by simp)
      | false =>
        simp only [hexp, Bool.false_eq_true, if_false]
        cases hu : LS.updateAccessOrder pre cap k s with
        | mk e1 s1 =>
          rw [hu] at huao
          cases e1 with
          | ok u => exact ⟨e.value, rfl⟩
          | error u => exact absurd huao.1 (by simp)

theorem ls_delete_no_throw (pre : String) (k : String) {s : LSStorage α}
    (h : (LS.getAccessOrder pre s).isSome = true) :
    (LS.delete pre k s).1 = Except.ok () :=
  (ls_rfs_ok h k).1

end LSInvariant

section FSInvariant

variable {α : Type}

theorem hashKeys_eq (l : List (String × α)) :
    (l.map fun p => FS.hash p.1) = (l.map Prod.fst).map FS.hash := by
  rw [List.map_map]
  rfl

theorem hashKeys_nodup {l : List (String × α)} (h : (l.map Prod.fst).Nodup) :
    (l.map fun p => FS.hash p.1).Nodup := by
  rw [hashKeys_eq]
  exact h.map (fun a b hab => hash_inj hab)

theorem raw_not_mem_hashKeys {l : List (String × α)} {k : String}
    (hk : k.data.head? ≠ some '#') : k ∉ l.map fun p => FS.hash p.1 := by
  intro hmem
  obtain ⟨p, _, hpk⟩ := List.mem_map.mp hmem
  exact hash_ne_of_head hk hpk

theorem hash_not_mem_hashKeys {l : List (String × α)} {k : String}
    (hk : k ∉ l.map Prod.fst) : FS.hash k ∉ l.map fun p => FS.hash p.1 := by
  intro hmem
  obtain ⟨p, hp, hpk⟩ := List.mem_map.mp hmem
  exact hk (hash_inj hpk ▸ List.mem_map_of_mem Prod.fst hp)

theorem fs_getOrder_mk (files : List (String × Content α)) (l : List String) :
    FS.getAccessOrder ⟨files, some (.ord l)⟩ = some l := rfl

theorem fs_getOrder_cleanState (now : Nat) (ws : List (String × α)) (w : String × α) :
    FS.getAccessOrder (FS.cleanState now ws w) =
      some ((ws.map fun p => FS.hash p.1) ++ [w.1]) := rfl

theorem fs_cleanState_live (now : Nat) (ws : List (String × α)) (w : String × α) :
    ∀ p ∈ (FS.cleanState (α := α) now ws w).files,
      ∃ e, p.2 = .ent e ∧ jsExpired now e.expiry = false := by
  intro p hp
  rw [FS.cleanState] at hp
  obtain ⟨q, _, hqp⟩ := List.mem_map.mp hp
  refine ⟨sentryOf now q, ?_, rfl⟩
  rw [← hqp]

theorem fs_cleanup_clean (now : Nat) (cap : Option Nat) (ws : List (String × α))
    (w : String × α)
    (hnd : ((ws ++ [w]).map Prod.fst).Nodup)
    (hfree : ∀ p ∈ ws ++ [w], p.1.data.head? ≠ some '#')
    (hcap : capLT cap (ws.length + 1) = false) :
    FS.cleanup now cap (FS.cleanState now ws w) =
      (Except.ok (), ⟨(FS.cleanState now ws w).files,
       some (.ord ((ws ++ [w]).map fun p => FS.hash p.1))⟩) := by
  rw [FS.cleanup]
  rw [cleanupScan_live (fs_cleanState_live now ws w) _ []]
  rw [fs_getOrder_cleanState]
  have hfst : (FS.cleanState (α := α) now ws w).files.map Prod.fst =
      (ws ++ [w]).map fun p => FS.hash p.1 := by
    rw [FS.cleanState, List.map_map]
    rfl
  rw [List.nil_append, hfst]
  simp only []
  have hwfree : w.1.data.head? ≠ some '#' :=
    hfree w (List.mem_append_right ws (List.mem_cons_self w []))
  have hkeep : ((ws.map fun p => FS.hash p.1) ++ [w.1]).filter
      (fun k => ((ws ++ [w]).map fun p => FS.hash p.1).contains k) =
      ws.map fun p => FS.hash p.1 := by
    rw [List.filter_append]
    have h1 : (ws.map fun p => FS.hash p.1).filter
        (fun k => ((ws ++ [w]).map fun p => FS.hash p.1).contains k) =
        ws.map fun p => FS.hash p.1 := by
      apply List.filter_eq_self.mpr
      intro x hx
      rw [contains_eq_decide_mem]
      apply decide_eq_true
      rw [List.map_append]
      exact List.mem_append_left _ hx
    have h2 : ([w.1] : List String).filter
        (fun k => ((ws ++ [w]).map fun p => FS.hash p.1).contains k) = [] := by
      have hmem : w.1 ∉ (ws ++ [w]).map fun p => FS.hash p.1 :=
        raw_not_mem_hashKeys hwfree
      have hdec : ((ws ++ [w]).map fun p => FS.hash p.1).contains w.1 = false := by
        rw [contains_eq_decide_mem]
        exact decide_eq_false hmem
      rw [List.filter_cons, hdec]
      rfl
    rw [h1, h2, List.append_nil]
  rw [hkeep]
  have hvalid : ((ws ++ [w]).map fun p => FS.hash p.1) =
      (ws.map fun p => FS.hash p.1) ++ [FS.hash w.1] := by
    rw [List.map_append]
    rfl
  have hwnew : FS.hash w.1 ∉ ws.map fun p => FS.hash p.1 := by
    apply hash_not_mem_hashKeys
    rw [List.map_append] at hnd
    have hdisj := (List.nodup_append.mp hnd).2.2
    intro hmem
    exact hdisj hmem (by simp)
  have hupd : FS.addMissing (ws.map fun p => FS.hash p.1)
      ((ws ++ [w]).map fun p => FS.hash p.1) =
      (ws ++ [w]).map fun p => FS.hash p.1 := by
    rw [hvalid, addMissing_append, addMissing_contained (fun x hx => hx),
      addMissing_single_new hwnew]
  rw [hupd]
  have hlen : ((ws ++ [w]).map fun p => FS.hash p.1).length = ws.length + 1 := by
    simp
  rw [fs_evictLoop_noop (by rw [hlen]; exact hcap)]

theorem fs_set_under (now : Nat) (cap : Option Nat) {ws : List (String × α)}
    {w : String × α} {k : String} (v : α)
    (hnd : ((ws ++ [w]).map Prod.fst).Nodup)
    (hfree : ∀ p ∈ ws ++ [w], p.1.data.head? ≠ some '#')
    (hkfree : k.data.head? ≠ some '#')
    (hknew : k ∉ (ws ++ [w]).map Prod.fst)
    (hcapLT : capLT cap (ws.length + 1) = false)
    (hcapLE : capLE cap (ws.length + 1) = false) :
    FS.set noUndef now cap k v none (FS.cleanState now ws w) =
      (Except.ok (), FS.cleanState now (ws ++ [w]) (k, v)) := by
  rw [FS.set, fs_cleanup_clean now cap ws w hnd hfree hcapLT]
  simp only [fs_getOrder_mk, noUndef_store]
  have hkraw : k ∉ (ws ++ [w]).map fun p => FS.hash p.1 := raw_not_mem_hashKeys hkfree
  have hcont : ((ws ++ [w]).map fun p => FS.hash p.1).contains k = false := by
    rw [contains_eq_decide_mem]
    exact decide_eq_false hkraw
  have hlen : ((ws ++ [w]).map fun p => FS.hash p.1).length = ws.length + 1 := by
    simp
  rw [if_neg (by rw [hcont, hlen, hcapLE]; decide)]
  have habs : alookup (FS.hash k)
      (FS.cleanState (α := α) now ws w).files = none := by
    rw [FS.cleanState]
    exact alookup_kmap_of_not_mem _ _ (hash_not_mem_hashKeys hknew)
  simp only [fs_getOrder_mk]
  rw [aset_absent habs]
  simp only [FS.updateOrderList, filter_ne_of_not_mem hkraw]
  simp [FS.cleanState, List.map_append, sentryOf]

theorem fs_set_first (now : Nat) (cap : Option Nat) (k : String) (v : α)
    (hcapLE : capLE cap 0 = false) :
    FS.set noUndef now cap k v none FS.init =
      (Except.ok (), FS.cleanState now [] (k, v)) := by
  have hclean : FS.cleanup now cap (FS.init (α := α)) =
      (Except.ok (), ⟨[], some (.ord [])⟩) := by
    rw [FS.cleanup, FS.init]
    rfl
  rw [FS.set, hclean]
  simp [hcapLE, FS.updateOrderList, FS.cleanState, sentryOf, aset, fs_getOrder_mk]

theorem fs_setList_under (now : Nat) (cap : Option Nat) :
    ∀ (t ws : List (String × α)) (w : String × α),
      ((ws ++ w :: t).map Prod.fst).Nodup →
      (∀ p ∈ ws ++ w :: t, p.1.data.head? ≠ some '#') →
      (∀ j, j < (ws ++ w :: t).length → capLE cap j = false) →
      FS.setList noUndef now cap t (FS.cleanState now ws w) =
        FS.cleanState now (ws ++ (w :: t).dropLast)
          ((w :: t).getLast (List.cons_ne_nil w t)) := by
  intro t
  induction t with
  | nil =>
    intro ws w _ _ _
    simp [FS.setList]
  | cons q t' ih =>
    intro ws w hnd hfree hcap
    have hassoc : (ws ++ [w]) ++ q :: t' = ws ++ w :: q :: t' := by simp
    have hnd1 : ((ws ++ [w]).map Prod.fst).Nodup := by
      have hsub : List.Sublist (ws ++ [w]) (ws ++ w :: q :: t') :=
        List.Sublist.append_left
          (List.Sublist.cons₂ w (List.nil_sublist (q :: t'))) ws
      exact List.Nodup.sublist (hsub.map Prod.fst) hnd
    have hfree1 : ∀ p ∈ ws ++ [w], p.1.data.head? ≠ some '#' := by
      intro p hp
      apply hfree
      rcases List.mem_append.mp hp with h | h
      · exact List.mem_append_left _ h
      · have hw : p = w := by simpa using h
        rw [hw]
        exact List.mem_append_right _ (List.mem_cons_self w _)
    have hknew : q.1 ∉ (ws ++ [w]).map Prod.fst := by
      have hmapeq : (ws ++ w :: q :: t').map Prod.fst =
          ws.map Prod.fst ++ w.1 :: q.1 :: t'.map Prod.fst := by
        rw [List.map_append, List.map_cons, List.map_cons]
      have hnd2 : (ws.map Prod.fst ++ w.1 :: q.1 :: t'.map Prod.fst).Nodup := by
        rw [← hmapeq]
        exact hnd
      have hparts := List.nodup_append.mp hnd2
      have hndL2 := hparts.2.1
      rw [List.nodup_cons] at hndL2
      rw [List.map_append]
      intro hmem
      rcases List.mem_append.mp hmem with h | h
      · exact hparts.2.2 h (List.mem_cons_of_mem _ (List.mem_cons_self q.1 _))
      · have hqw : q.1 = w.1 := by simpa using h
        apply hndL2.1
        rw [← hqw]
        exact List.mem_cons_self q.1 _
    have hkfree : q.1.data.head? ≠ some '#' :=
      hfree q (List.mem_append_right _ (List.mem_cons_of_mem w (List.mem_cons_self q t')))
    have hcapj : capLE cap (ws.length + 1) = false := by
      apply hcap
      rw [List.length_append]
      simp only [List.length_cons]
      omega
    have hstep := fs_set_under now cap q.2 hnd1 hfree1 hkfree hknew
      (capLT_of_capLE hcapj) hcapj
    rw [fs_setList_cons, hstep]
    simp only []
    have := ih (ws ++ [w]) q (by rw [hassoc]; exact hnd)
      (by rw [hassoc]; exact hfree) (by rw [hassoc]; exact hcap)
    rw [this]
    have hdrop : (ws ++ [w]) ++ (q :: t').dropLast = ws ++ (w :: q :: t').dropLast := by
      rw [List.append_assoc]
      congr 1
    have hlast : (q :: t').getLast (List.cons_ne_nil q t') =
        (w :: q :: t').getLast (List.cons_ne_nil w (q :: t')) :=
      (List.getLast_cons (List.cons_ne_nil q t')).symm
    rw [hdrop, hlast]

theorem fs_set_evict (now : Nat) {n : Nat} {ws : List (String × α)} {w : String × α}
    {p0 : String × α} {rest2 : List (String × α)} {k : String} (v : α)
    (hsplit : ws ++ [w] = p0 :: rest2)
    (hn : n = ws.length + 1)
    (hnd : ((ws ++ [w]).map Prod.fst).Nodup)
    (hfree : ∀ p ∈ ws ++ [w], p.1.data.head? ≠ some '#')
    (hkfree : k.data.head? ≠ some '#')
    (hknew : k ∉ (ws ++ [w]).map Prod.fst) :
    FS.set noUndef now (some n) k v none (FS.cleanState now ws w) =
      (Except.ok (), FS.cleanState now rest2 (k, v)) := by
  rw [FS.set, fs_cleanup_clean now (some n) ws w hnd hfree (by simp [capLT, hn])]
  simp only [fs_getOrder_mk, noUndef_store]
  have hkraw : k ∉ (ws ++ [w]).map fun p => FS.hash p.1 := raw_not_mem_hashKeys hkfree
  have hcont : ((ws ++ [w]).map fun p => FS.hash p.1).contains k = false := by
    rw [contains_eq_decide_mem]
    exact decide_eq_false hkraw
  have hlen : ((ws ++ [w]).map fun p => FS.hash p.1).length = ws.length + 1 := by
    simp
  have hcond : (!((ws ++ [w]).map fun p => FS.hash p.1).contains k &&
      capLE (some n) ((ws ++ [w]).map fun p => FS.hash p.1).length) = true := by
    rw [hcont, hlen]
    simp [capLE, hn]
  rw [if_pos hcond]
  have hndsplit : ((p0 :: rest2).map Prod.fst).Nodup := hsplit ▸ hnd
  have hh0 : FS.hash p0.1 ∉ rest2.map fun p => FS.hash p.1 := by
    apply hash_not_mem_hashKeys
    rw [List.map_cons, List.nodup_cons] at hndsplit
    exact hndsplit.1
  have hknew2 : k ∉ rest2.map Prod.fst := by
    rw [hsplit, List.map_cons] at hknew
    exact fun hm => hknew (List.mem_cons_of_mem _ hm)
  have heraseU : aerase (FS.hash p0.1)
      ((ws.map fun p => (FS.hash p.1,
          Content.ent (⟨some p.2, now, none⟩ : CacheEntry (Option α)))) ++
        [(FS.hash w.1, Content.ent ⟨some w.2, now, none⟩)]) =
      rest2.map fun p => (FS.hash p.1, Content.ent ⟨some p.2, now, none⟩) := by
    have hstep := aerase_kmap_head (fun p => FS.hash p.1)
      (fun p => Content.ent (⟨some p.2, now, none⟩ : CacheEntry (Option α))) p0 hh0
    rw [← hstep]
    congr 1
    rw [← hsplit]
    simp [List.map_append]
  have habsU : alookup (FS.hash k)
      (rest2.map fun p => (FS.hash p.1,
        Content.ent (⟨some p.2, now, none⟩ : CacheEntry (Option α)))) = none :=
    alookup_kmap_of_not_mem _ _ (hash_not_mem_hashKeys hknew2)
  have hfilt2 : (rest2.map fun p => FS.hash p.1).filter (fun x => decide (x ≠ k)) =
      rest2.map fun p => FS.hash p.1 :=
    filter_ne_of_not_mem (raw_not_mem_hashKeys hkfree)
  rw [hsplit, List.map_cons]
  simp [hash_ne_empty p0.1, heraseU, aset_absent habsU, FS.updateOrderList,
    hfilt2, fs_getOrder_mk, FS.cleanState, List.map_append, sentryOf]
  intro a x x1 hmem hha hak
  exact hash_ne_of_head hkfree (hha.trans hak)

theorem fs_get_clean_hit (now now2 : Nat) {ws : List (String × α)} {w p : String × α}
    (hnd : ((ws ++ [w]).map Prod.fst).Nodup) (hp : p ∈ ws ++ [w]) :
    (FS.get now2 p.1 (FS.cleanState now ws w)).1 = some p.2 := by
  have hsome : alookup (FS.hash p.1) (FS.cleanState (α := α) now ws w).files =
      some (.ent (sentryOf now p)) := by
    rw [FS.cleanState]
    exact alookup_kmap_of_mem _ _ (hashKeys_nodup hnd) hp
  rw [FS.get, hsome]
  simp [sentryOf, fs_getOrder_cleanState]

theorem fs_get_clean_miss (now now2 : Nat) {ws : List (String × α)} {w : String × α}
    {k : String} (h : k ∉ (ws ++ [w]).map Prod.fst) :
    FS.get now2 k (FS.cleanState now ws w) = (none, FS.cleanState now ws w) := by
  have habs : alookup (FS.hash k) (FS.cleanState (α := α) now ws w).files = none := by
    rw [FS.cleanState]
    exact alookup_kmap_of_not_mem _ _ (hash_not_mem_hashKeys h)
  rw [FS.get, habs]

end FSInvariant

section Unbounded

variable {α : Type}

theorem memory_cleanup_none (now : Nat) {st : MemoryState α} (h : Memory.allFresh st) :
    Memory.cleanup now none st =
      ⟨st.store, st.accessOrder.filter (fun k => (alookup k st.store).isSome)⟩ := by
  rw [Memory.cleanup, memory_expire_fixed h, memory_evictLoop_noop (capLT_none _)]

theorem memory_set_none (now : Nat) {st : MemoryState α} (h : Memory.allFresh st)
    (k : String) (v : α) :
    (Memory.set now none k v none st).store = aset k ⟨v, now, none⟩ st.store := by
  rw [Memory.set, memory_cleanup_none now h]
  rw [if_neg (by simp [capLE])]
  rfl

theorem memory_allFresh_set (now : Nat) {st : MemoryState α} (h : Memory.allFresh st)
    (k : String) (v : α) : Memory.allFresh (Memory.set now none k v none st) := by
  intro q hq
  rw [memory_set_none now h] at hq
  rcases mem_aset hq with h1 | h1
  · rw [h1]
  · exact h q h1

theorem memory_setList_none (now : Nat) :
    ∀ (ps : List (String × α)) (st : MemoryState α), Memory.allFresh st →
      Memory.allFresh (Memory.setList now none ps st) ∧
      (∀ k, (alookup k st.store).isSome = true →
        (alookup k (Memory.setList now none ps st).store).isSome = true) ∧
      ∀ p ∈ ps, (alookup p.1 (Memory.setList now none ps st).store).isSome = true := by
  intro ps
  induction ps with
  | nil =>
    intro st h
    exact ⟨h, fun k hk => by simpa [Memory.setList] using hk, by simp⟩
  | cons p t ih =>
    intro st h
    have hfresh1 : Memory.allFresh (Memory.set now none p.1 p.2 none st) :=
      memory_allFresh_set now h p.1 p.2
    obtain ⟨ha, hb, hc⟩ := ih (Memory.set now none p.1 p.2 none st) hfresh1
    rw [memory_setList_cons]
    refine ⟨ha, ?_, ?_⟩
    · intro k hk
      apply hb
      rw [memory_set_none now h]
      exact isSome_alookup_aset _ hk
    · intro q hq
      rcases List.mem_cons.mp hq with h1 | h1
      · subst h1
        apply hb
        rw [memory_set_none now h, alookup_aset_self]
        rfl
      · exact hc q h1

theorem memory_get_fresh (now2 : Nat) {st : MemoryState α} (h : Memory.allFresh st)
    {k : String} (hk : (alookup k st.store).isSome = true) :
    (Memory.get now2 k st).1.isSome = true := by
  cases hc : alookup k st.store with
  | none => rw [hc] at hk; simp at hk
  | some e =>
    have hmem : (k, e) ∈ st.store := alookup_mem hc
    have hexp : e.expiry = none := h (k, e) hmem
    rw [Memory.get, hc]
    simp [hexp]

theorem ls_set_none_entry (now : Nat) (pre : String) {s : LSStorage α}
    {l : List String} (hord : LS.getAccessOrder pre s = some l)
    {k : String} (v : α) (hk : k ≠ "__access_order")
    {q : String} (hq : q ≠ "__access_order") :
    alookup (pre ++ q) (LS.set noUndef now pre none k v none s).2 =
      if q = k then some (.ent ⟨some v, now, none⟩) else alookup (pre ++ q) s := by
  rw [ls_set_snd]
  have hord1 : LS.getAccessOrder pre (aset (pre ++ k)
      (.ent ⟨if noUndef v then none else some v, now, jsExpiry now none⟩) s) =
      some l := by
    rw [ls_getOrder_aset_ne pre (entry_ne_orderKey pre hk), hord]
  rw [ls_uao_noevict none k hord1 (by simp [capLT])]
  simp only []
  rw [LS.setAccessOrder, alookup_aset_ne (entry_ne_orderKey pre hq)]
  by_cases hqk : q = k
  · subst hqk
    rw [if_pos rfl, alookup_aset_self]
    simp
  · rw [if_neg hqk, alookup_aset_ne (append_ne_of_ne hqk)]

theorem ls_liveEnt_set (now : Nat) (pre : String) {s : LSStorage α}
    {l : List String} (hord : LS.getAccessOrder pre s = some l)
    {k : String} (hk : k ≠ "__access_order") (v : α)
    {q : String} (hq : q ≠ "__access_order")
    (h : q = k ∨ LS.liveEnt pre q s) :
    LS.liveEnt pre q (LS.set noUndef now pre none k v none s).2 := by
  rw [LS.liveEnt, ls_set_none_entry now pre hord v hk hq]
  by_cases hqk : q = k
  · rw [if_pos hqk]
    exact ⟨⟨some v, now, none⟩, rfl, rfl, rfl⟩
  · rw [if_neg hqk]
    rcases h with h1 | h1
    · exact absurd h1 hqk
    · exact h1

theorem ls_setList_none (now : Nat) (pre : String) :
    ∀ (ps : List (String × α)) (s : LSStorage α),
      (∀ p ∈ ps, p.1 ≠ "__access_order") →
      (LS.getAccessOrder pre s).isSome = true →
      (LS.getAccessOrder pre (LS.setList noUndef now pre none ps s)).isSome = true ∧
      (∀ q, q ≠ "__access_order" → LS.liveEnt pre q s →
        LS.liveEnt pre q (LS.setList noUndef now pre none ps s)) ∧
      ∀ p ∈ ps, LS.liveEnt pre p.1 (LS.setList noUndef now pre none ps s) := by
  intro ps
  induction ps with
  | nil =>
    intro s _ hord
    exact ⟨by simpa [LS.setList] using hord,
      fun q _ hq => by simpa [LS.setList] using hq, by simp⟩
  | cons p t ih =>
    intro s hres hord
    obtain ⟨l, hl⟩ := Option.isSome_iff_exists.mp hord
    have hres1 : ∀ q ∈ t, q.1 ≠ "__access_order" :=
      fun q hq => hres q (List.mem_cons_of_mem p hq)
    have hp1 : p.1 ≠ "__access_order" := hres p (List.mem_cons_self p t)
    have hord1 : (LS.getAccessOrder pre
        (LS.set noUndef now pre none p.1 p.2 none s).2).isSome = true :=
      (ls_set_ok noUndef now pre none p.1 p.2 none hord hp1).2
    obtain ⟨ha, hb, hc⟩ := ih (LS.set noUndef now pre none p.1 p.2 none s).2 hres1 hord1
    rw [ls_setList_cons]
    refine ⟨ha, ?_, ?_⟩
    · intro q hq hlive
      exact hb q hq (ls_liveEnt_set now pre hl hp1 p.2 hq (Or.inr hlive))
    · intro q hq
      rcases List.mem_cons.mp hq with h1 | h1
      · subst h1
        have hq1 : q.1 ≠ "__access_order" := hres q (List.mem_cons_self q t)
        exact hb q.1 hq1 (ls_liveEnt_set now pre hl hp1 q.2 hq1 (Or.inl rfl))
      · exact hc q h1

theorem ls_get_live (now2 : Nat) (pre : String) (cap : Option Nat)
    {s : LSStorage α} {k : String}
    (hord : (LS.getAccessOrder pre s).isSome = true)
    (h : LS.liveEnt pre k s) :
    ((LS.get now2 pre cap k s).1.map Option.isSome) = Except.ok true := by
  obtain ⟨e, he, hexp, hval⟩ := h
  have hok := (ls_uao_ok hord cap k).1
  rw [ls_get_live_eq now2 pre cap he (by rw [hexp]; rfl) hok]
  simp [hval]

theorem fs_cleanup_none (now : Nat) {st : FSState α} (h : FS.allLive st)
    {l : List String} (ho : FS.getAccessOrder st = some l) :
    ∃ l2, FS.cleanup now none st = (Except.ok (), ⟨st.files, some (.ord l2)⟩) := by
  have hlive : ∀ p ∈ st.files, ∃ e, p.2 = .ent e ∧ jsExpired now e.expiry = false := by
    intro p hp
    obtain ⟨e, he, hexp, _⟩ := h p hp
    exact ⟨e, he, by rw [hexp]; rfl⟩
  refine ⟨FS.addMissing (l.filter (fun k => (st.files.map Prod.fst).contains k))
    (st.files.map Prod.fst), ?_⟩
  rw [FS.cleanup, cleanupScan_live hlive _ [], ho]
  simp only [List.nil_append]
  rw [fs_evictLoop_noop (capLT_none _)]

theorem fs_set_none (now : Nat) {st : FSState α} (h : FS.allLive st)
    {l : List String} (ho : FS.getAccessOrder st = some l) (k : String) (v : α) :
    (FS.set noUndef now none k v none st).2.files =
      aset (FS.hash k) (.ent ⟨some v, now, none⟩) st.files ∧
    ∃ l2, FS.getAccessOrder (FS.set noUndef now none k v none st).2 = some l2 := by
  obtain ⟨l1, hcl⟩ := fs_cleanup_none now h ho
  rw [FS.set, hcl]
  simp only [fs_getOrder_mk, capLE_none, Bool.and_false, Bool.false_eq_true, if_false]
  exact ⟨rfl, FS.updateOrderList k l1, rfl⟩

theorem fs_allLive_set (now : Nat) {st : FSState α} (h : FS.allLive st)
    {l : List String} (ho : FS.getAccessOrder st = some l) (k : String) (v : α) :
    FS.allLive (FS.set noUndef now none k v none st).2 := by
  intro q hq
  rw [(fs_set_none now h ho k v).1] at hq
  rcases mem_aset hq with h1 | h1
  · exact ⟨⟨some v, now, none⟩, by rw [h1], rfl, rfl⟩
  · exact h q h1

theorem fs_setList_none (now : Nat) :
    ∀ (ps : List (String × α)) (st : FSState α), FS.allLive st →
      (∃ l, FS.getAccessOrder st = some l) →
      (FS.allLive (FS.setList noUndef now none ps st) ∧
        ∃ l, FS.getAccessOrder (FS.setList noUndef now none ps st) = some l) ∧
      (∀ q, (alookup q st.files).isSome = true →
        (alookup q (FS.setList noUndef now none ps st).files).isSome = true) ∧
      ∀ p ∈ ps,
        (alookup (FS.hash p.1) (FS.setList noUndef now none ps st).files).isSome
          = true := by
  intro ps
  induction ps with
  | nil =>
    intro st h ho
    exact ⟨⟨h, by simpa [FS.setList] using ho⟩,
      fun q hq => by simpa [FS.setList] using hq, by simp⟩
  | cons p t ih =>
    intro st h ho
    obtain ⟨l, hl⟩ := ho
    have hstep := fs_set_none now h hl p.1 p.2
    have hlive1 : FS.allLive (FS.set noUndef now none p.1 p.2 none st).2 :=
      fs_allLive_set now h hl p.1 p.2
    obtain ⟨⟨ha, ha2⟩, hb, hc⟩ :=
      ih (FS.set noUndef now none p.1 p.2 none st).2 hlive1 hstep.2
    rw [fs_setList_cons]
    refine ⟨⟨ha, ha2⟩, ?_, ?_⟩
    · intro q hq
      apply hb
      rw [hstep.1]
      exact isSome_alookup_aset _ hq
    · intro q hq
      rcases List.mem_cons.mp hq with h1 | h1
      · subst h1
        apply hb
        rw [hstep.1, alookup_aset_self]
        rfl
      · exact hc q h1

theorem fs_get_live (now2 : Nat) {st : FSState α} (h : FS.allLive st)
    {l : List String} (ho : FS.getAccessOrder st = some l)
    {k : String} (hk : (alookup (FS.hash k) st.files).isSome = true) :
    (FS.get now2 k st).1.isSome = true := by
  cases hc : alookup (FS.hash k) st.files with
  | none => rw [hc] at hk; simp at hk
  | some c =>
    have hmem : (FS.hash k, c) ∈ st.files := alookup_mem hc
    obtain ⟨e, he, hexp, hval⟩ := h (FS.hash k, c) hmem
    have he2 : c = Content.ent e := he
    rw [FS.get, hc, he2]
    simp [hexp, ho, hval]

end Unbounded

section TTL

variable {α : Type}

theorem memory_set_lookup_self (now : Nat) (cap : Option Nat) (k : String) (v : α)
    (ttl : Option Nat) (st : MemoryState α) :
    alookup k (Memory.set now cap k v ttl st).store =
      some ⟨v, now, jsExpiry now ttl⟩ :=
  alookup_aset_self k _ _

theorem fs_cleanup_ok (now : Nat) (cap : Option Nat) {st : FSState α}
    {l : List String} (ho : FS.getAccessOrder st = some l) :
    ∃ fl ol, FS.cleanup now cap st = (Except.ok (), ⟨fl, some (.ord ol)⟩) := by
  rw [FS.cleanup, ho]
  exact ⟨_, _, rfl⟩

theorem fs_set_eq_ok (undef : α → Bool) (now : Nat) (cap : Option Nat)
    (k : String) (v : α) (ttl : Option Nat) {st : FSState α}
    {l : List String} (ho : FS.getAccessOrder st = some l) :
    ∃ f2 l2, FS.set undef now cap k v ttl st =
      (Except.ok (), ⟨aset (FS.hash k)
        (.ent ⟨if undef v then none else some v, now, jsExpiry now ttl⟩) f2,
        some (.ord (FS.updateOrderList k l2))⟩) := by
  obtain ⟨fl, ol, hcl⟩ := fs_cleanup_ok now cap ho
  rw [FS.set, hcl]
  simp only [fs_getOrder_mk]
  by_cases hcond : (!ol.contains k && capLE cap ol.length) = true
  · cases ol with
    | nil =>
      refine ⟨fl, [], ?_⟩
      rw [if_pos hcond]
      simp [fs_getOrder_mk]
    | cons oldest rest =>
      by_cases hold : oldest = ""
      · refine ⟨fl, oldest :: rest, ?_⟩
        rw [if_pos hcond]
        simp [hold, fs_getOrder_mk]
      · refine ⟨aerase oldest fl, rest, ?_⟩
        rw [if_pos hcond]
        simp [hold, fs_getOrder_mk]
  · refine ⟨fl, ol, ?_⟩
    rw [if_neg hcond]
    simp [fs_getOrder_mk]

theorem fs_get_after_set (undef : α → Bool) (now now2 : Nat) (cap : Option Nat)
    (k : String) (v : α) {d : Nat} (hd : 0 < d) (hv : undef v = false)
    {st : FSState α} {l : List String} (ho : FS.getAccessOrder st = some l) :
    (FS.get now2 k (FS.set undef now cap k v (some d) st).2).1 =
      if now + d ≤ now2 then none else some v := by
  obtain ⟨f2, l2, hset⟩ := fs_set_eq_ok undef now cap k v (some d) ho
  rw [hset]
  simp only []
  rw [FS.get]
  simp only [alookup_aset_self, hv, Bool.false_eq_true, if_false, jsExpiry_pos hd]
  by_cases hle : now + d ≤ now2 <;>
    simp [jsExpired_shifted now2 now d hd, hle, FS.getAccessOrder]

theorem ls_set_lookup_self (undef : α → Bool) (now : Nat) (pre : String)
    (cap : Option Nat) (k : String) (v : α) (ttl : Option Nat) (s : LSStorage α)
    (hkres : k ≠ "__access_order") (hcap1 : capLT cap 1 = false) :
    alookup (pre ++ k) (LS.set undef now pre cap k v ttl s).2 =
      some (.ent ⟨if undef v then none else some v, now, jsExpiry now ttl⟩) := by
  rw [ls_set_snd, ls_uao_lookup pre cap _ hkres hcap1, alookup_aset_self]

theorem ls_get_after_set (undef : α → Bool) (now now2 : Nat) (pre : String)
    (cap : Option Nat) (k : String) (v : α) {d : Nat} (hd : 0 < d)
    (hv : undef v = false) {s : LSStorage α}
    (hord : (LS.getAccessOrder pre s).isSome = true)
    (hkres : k ≠ "__access_order") (hcap1 : capLT cap 1 = false) :
    (LS.get now2 pre cap k (LS.set undef now pre cap k v (some d) s).2).1 =
      Except.ok (if now + d ≤ now2 then none else some v) := by
  have hlook := ls_set_lookup_self undef now pre cap k v (some d) s hkres hcap1
  rw [hv] at hlook
  simp only [Bool.false_eq_true, if_false, jsExpiry_pos hd] at hlook
  have hS : (LS.getAccessOrder pre
      (LS.set undef now pre cap k v (some d) s).2).isSome = true :=
    (ls_set_ok undef now pre cap k v (some d) hord hkres).2
  by_cases hle : now + d ≤ now2
  · have hexp : jsExpired now2 (some (now + d)) = true := by
      rw [jsExpired_shifted now2 now d hd]
      exact decide_eq_true hle
    have hrfs := ls_rfs_ok hS k
    rw [LS.get, hlook]
    simp only [hexp, if_true]
    cases hr : LS.removeFromStorage pre k
        (LS.set undef now pre cap k v (some d) s).2 with
    | mk e1 s1 =>
      rw [hr] at hrfs
      cases e1 with
      | ok u => simp [hle]
      | error u => exact absurd hrfs.1 (by simp)
  · have hexp : jsExpired now2 (some (now + d)) = false := by
      rw [jsExpired_shifted now2 now d hd]
      exact decide_eq_false hle
    have hok := (ls_uao_ok hS cap k).1
    rw [ls_get_live_eq now2 pre cap hlook hexp hok]
    simp [hle]

theorem jsCapacity_capLT1 (o : Option Nat) : capLT (jsCapacity o) 1 = false := by
  cases o with
  | none => rfl
  | some n =>
    cases n with
    | zero => rfl
    | succ m => simp [jsCapacity, capLT]

theorem memory_get_after_set (now now2 : Nat) (cap : Option Nat) (k : String) (v : α)
    {d : Nat} (hd : 0 < d) (s : MemoryState α) :
    (Memory.get now2 k (Memory.set now cap k v (some d) s)).1 =
      if now + d ≤ now2 then none else some v := by
  rw [Memory.get, memory_set_lookup_self now cap k v (some d) s, jsExpiry_pos hd]
  by_cases hle : now + d ≤ now2 <;>
    simp [jsExpired_shifted now2 now d hd, hle]

theorem memory_has_after_set (now now2 : Nat) (cap : Option Nat) (k : String) (v : α)
    {d : Nat} (hd : 0 < d) (s : MemoryState α) :
    (Memory.has now2 k (Memory.set now cap k v (some d) s)).1 =
      if now + d ≤ now2 then false else true := by
  rw [Memory.has, memory_set_lookup_self now cap k v (some d) s, jsExpiry_pos hd]
  by_cases hle : now + d ≤ now2 <;>
    simp [jsExpired_shifted now2 now d hd, hle]

theorem ls_has_eq (now2 : Nat) (pre : String) (cap : Option Nat) (k : String)
    (s : LSStorage α) :
    (LS.has now2 pre cap k s).1 = ((LS.get now2 pre cap k s).1).map Option.isSome :=
  rfl

theorem fs_has_eq (now2 : Nat) (k : String) (st : FSState α) :
    (FS.has now2 k st).1 = (FS.get now2 k st).1.isSome := rfl

end TTL

section Memoize

variable {σ β : Type}

theorem memoCall_miss (cap ttl : Option Nat) (f : σ → Option β)
    (keyOf : σ → String) (now : Nat) (a : σ) (st : MemoState β)
    (hf : f a = none)
    (hP : ∀ e, alookup (keyOf a) st.cache.store = some e → e.value = none) :
    (memoCall cap ttl f keyOf now a st).2.invocations = st.invocations + 1 ∧
    ∀ e, alookup (keyOf a) (memoCall cap ttl f keyOf now a st).2.cache.store = some e →
      e.value = none := by
  have hset : ∀ c : MemoryState (Option β),
      ∀ e, alookup (keyOf a) (Memory.set now cap (keyOf a) (f a) ttl c).store = some e →
        e.value = none := by
    intro c e he
    rw [memory_set_lookup_self] at he
    injection he with he2
    rw [← he2, hf]
  have hjoin : (Memory.get now (keyOf a) st.cache).1.join = none := by
    cases hc : alookup (keyOf a) st.cache.store with
    | none =>
      rw [Memory.get, hc]
      rfl
    | some e =>
      have hval := hP e hc
      rw [Memory.get, hc]
      cases hexp : jsExpired now e.expiry with
      | true => simp [hexp]
      | false => simp [hexp, hval]
  have hredex : memoCall cap ttl f keyOf now a st =
      (f a, ⟨Memory.set now cap (keyOf a) (f a) ttl
        (Memory.get now (keyOf a) st.cache).2, st.invocations + 1⟩) := by
    simp only [memoCall, hjoin]
  rw [hredex]
  exact ⟨rfl, hset _⟩

theorem memoIter_invocations (cap ttl : Option Nat) (f : σ → Option β)
    (keyOf : σ → String) (now : Nat) (a : σ) (hf : f a = none) :
    ∀ n, (memoIter cap ttl f keyOf now a n).invocations = n ∧
      ∀ e, alookup (keyOf a) (memoIter cap ttl f keyOf now a n).cache.store = some e →
        e.value = none := by
  intro n
  induction n with
  | zero => exact ⟨rfl, by intro e he; simp [memoIter, memoInit, Memory.init] at he⟩
  | succ m ih =>
    have hstep := memoCall_miss cap ttl f keyOf now a
      (memoIter cap ttl f keyOf now a m) hf ih.2
    rw [memoIter]
    exact ⟨by rw [hstep.1, ih.1], hstep.2⟩

end Memoize

section Claims

/-- C1: the claim says that on every adapter with maxEntries=2, after
set(A), set(B), get(A) (a hit), set(C), the key B is evicted while A and C
remain, because a read renews recency.  The file adapter violates this: its
cleanup rebuilds the access order from hashed file names in directory
order, and the raw key "A" pushed by get never matches a hashed name, so
the read renewal is discarded and A — not B — is evicted.  This theorem
evaluates the code at that failing input. -/
theorem C1_fs_read_renewal_lost :
    (FS.get 4 "A" fsC1state).1 = none ∧
    (FS.get 4 "B" fsC1state).1 = some "b" ∧
    (FS.get 4 "C" fsC1state).1 = some "c" := by
  decide

/-- C2: the claim says the three adapters are behaviorally indistinguishable
under single-writer access.  The identical operation sequence set(A),
set(B), has(A), set(C) at capacity 2 distinguishes them: has returns true on
both adapters, but the memory adapter's has does not renew recency (so A is
evicted by set(C)) while the key/value adapter's has delegates to get and
does renew (so B is evicted instead): the subsequent get(A) returns a miss
on one and the stored value on the other.  This theorem evaluates both
adapters at that input. -/
theorem C2_adapters_distinguishable :
    (Memory.has 2 "A" memC2pre).1 = true ∧
    (LS.has 2 "cache:" (jsCapacity (some 2)) "A" lsC2pre).1 = Except.ok true ∧
    (Memory.get 4 "A" memC2state).1 = none ∧
    (LS.get 4 "cache:" (jsCapacity (some 2)) "A" lsC2state).1 =
      Except.ok (some "a") := by
  decide

/-- C3: the claim says an entry is evicted only when the live count is at
capacity AND the key is not already present.  On the file adapter the
presence check compares the raw key against the hashed file names that
cleanup wrote into the access order, so it never matches: updating the
already-present key B at capacity 2 evicts the unrelated live key A.  This
theorem evaluates the code at that failing input. -/
theorem C3_fs_update_at_capacity_evicts :
    (FS.get 3 "A" fsC3state).1 = none ∧
    (FS.get 3 "B" fsC3state).1 = some "b2" := by
  decide

/-- C6 counterexample: after set("k", undefined) on the memory adapter,
has("k") returns true while get("k") returns undefined — the same
observable as a miss at the JS interface (the stored `some none` collapses
to `none` under `Option.join`).  So "has(key) = true iff get(key) returns a
value rather than a miss" fails as stated. -/
theorem C6_stored_undefined_counterexample :
    (Memory.has 0 "k" memUndefState).1 = true ∧
    (Memory.get 0 "k" memUndefState).1 = some none ∧
    (Memory.get 0 "k" memUndefState).1.join = none := by
  decide

/-- C6 amended: whenever stored values cannot be undefined (the value type
carries no JS undefined), has agrees with get on every adapter and state:
it returns true exactly when get returns a value, in particular false on
expired or absent keys.  (The key/value and file adapters satisfy this
definitionally — has is `(await get) !== undefined`, true exactly when the
resolved value is a defined one, and rejecting exactly when get rejects;
the memory adapter checks presence-and-unexpired, which coincides when no
stored value is undefined.) -/
theorem C6_has_iff_get_amended {α : Type} (now : Nat) (k pre : String)
    (cap : Option Nat) (ms : MemoryState α) (ls : LSStorage α) (fst1 : FSState α) :
    (Memory.has now k ms).1 = (Memory.get now k ms).1.isSome ∧
    (LS.has now pre cap k ls).1 = ((LS.get now pre cap k ls).1).map Option.isSome ∧
    (FS.has now k fst1).1 = (FS.get now k fst1).1.isSome := by
  refine ⟨?_, rfl, rfl⟩
  cases hc : alookup k ms.store with
  | none =>
    rw [Memory.has, Memory.get, hc]
    rfl
  | some e =>
    rw [Memory.has, Memory.get, hc]
    cases hexp : jsExpired now e.expiry with
    | true => simp [hexp]
    | false => simp [hexp]

/-- C8 counterexample: clear() on the key/value adapter removes a key that
does not carry the configured "cache:" namespace marker, so entries outside
the adapter's namespace are not left unchanged. -/
theorem C8_clear_wipes_foreign_counterexample :
    alookup "other" lsForeignState = some (Content.ent ⟨some "x", 0, none⟩) ∧
    alookup "other" (LS.clear "cache:" lsForeignState) = none := by
  decide

/-- C8 amended: clear() on the key/value adapter removes its namespace's
keys and then clears the entire backing store (`localStorage.clear()` in
the source), leaving the store empty — every key is removed, whether or not
it carries the configured namespace marker. -/
theorem C8_clear_amended {α : Type} (pre : String) (s : LSStorage α) :
    LS.clear pre s = [] := rfl

/-- C4 counterexample: an entry stored with the (truthy) ttl 5 at instant 0
whose value is the JS undefined.  `JSON.stringify` drops the undefined
value field, so on the key/value adapter — read back well before the expiry
boundary (now2 = 1 < 0 + 5) — get resolves undefined and has resolves
false, while the memory adapter's has returns true after the identical
sequence.  So "get/has report the entry expired iff now >= createdAt +
ttl" fails as stated for the persistent adapters. -/
theorem C4_undef_ttl_counterexample :
    (LS.get 1 "cache:" none "k" lsUndefState).1 = Except.ok none ∧
    (LS.has 1 "cache:" none "k" lsUndefState).1 = Except.ok false ∧
    (Memory.has 1 "k" memUndefTtlState).1 = true := by
  decide

/-- C4 amended: for every adapter and every entry stored with a (truthy,
hence positive) ttl `d` at instant `now`, provided the stored value is not
the JS undefined (`undef v = false` — otherwise the persistent adapters
serialise it away), the key is not the reserved order-document name, and
the pre-existing order document of the persistent adapters is well formed,
get and has miss whenever `now2 ≥ now + d` and hit whenever
`now2 < now + d`: expiry is boundary-inclusive at exactly `createdAt + d`. -/
theorem C4_ttl_boundary_amended {α : Type} (undef : α → Bool) (v : α)
    (now now2 d : Nat) (hd : 0 < d) (hv : undef v = false)
    (k pre : String) (hkres : k ≠ "__access_order") (o : Option Nat)
    (ms : MemoryState α) (ls : LSStorage α) (fst1 : FSState α)
    (hlso : (LS.getAccessOrder pre ls).isSome = true)
    (lf : List String) (hfso : FS.getAccessOrder fst1 = some lf) :
    ((Memory.get now2 k (Memory.set now (jsCapacity o) k v (some d) ms)).1 =
      if now + d ≤ now2 then none else some v) ∧
    ((Memory.has now2 k (Memory.set now (jsCapacity o) k v (some d) ms)).1 =
      if now + d ≤ now2 then false else true) ∧
    ((LS.get now2 pre (jsCapacity o) k
        (LS.set undef now pre (jsCapacity o) k v (some d) ls).2).1 =
      Except.ok (if now + d ≤ now2 then none else some v)) ∧
    ((LS.has now2 pre (jsCapacity o) k
        (LS.set undef now pre (jsCapacity o) k v (some d) ls).2).1 =
      Except.ok (if now + d ≤ now2 then false else true)) ∧
    ((FS.get now2 k (FS.set undef now (jsCapacity o) k v (some d) fst1).2).1 =
      if now + d ≤ now2 then none else some v) ∧
    ((FS.has now2 k (FS.set undef now (jsCapacity o) k v (some d) fst1).2).1 =
      if now + d ≤ now2 then false else true) := by
  have hcap1 := jsCapacity_capLT1 o
  refine ⟨memory_get_after_set now now2 (jsCapacity o) k v hd ms,
    memory_has_after_set now now2 (jsCapacity o) k v hd ms,
    ls_get_after_set undef now now2 pre (jsCapacity o) k v hd hv hlso hkres hcap1,
    ?_, fs_get_after_set undef now now2 (jsCapacity o) k v hd hv hfso, ?_⟩
  · rw [ls_has_eq,
      ls_get_after_set undef now now2 pre (jsCapacity o) k v hd hv hlso hkres hcap1]
    by_cases hle : now + d ≤ now2 <;> simp [hle]
  · rw [fs_has_eq, fs_get_after_set undef now now2 (jsCapacity o) k v hd hv hfso]
    by_cases hle : now + d ≤ now2 <;> simp [hle]

/-- C4 witness: concrete instance with ttl 5 stored at time 0 and read at
the boundary instant 5 (a miss) — the hypotheses hold at this input. -/
theorem C4_ttl_boundary_witness :
    (0 < 5 ∧ noUndef "v" = false ∧ ("k" : String) ≠ "__access_order" ∧
      (LS.getAccessOrder "cache:" ([] : LSStorage String)).isSome = true ∧
      FS.getAccessOrder (FS.init (α := String)) = some []) ∧
    (((Memory.get 5 "k"
        (Memory.set 0 (jsCapacity (some 3)) "k" "v" (some 5)
          (Memory.init (α := String)))).1 =
      if 0 + 5 ≤ 5 then none else some "v") ∧
    ((Memory.has 5 "k"
        (Memory.set 0 (jsCapacity (some 3)) "k" "v" (some 5)
          (Memory.init (α := String)))).1 =
      if 0 + 5 ≤ 5 then false else true) ∧
    ((LS.get 5 "cache:" (jsCapacity (some 3)) "k"
        (LS.set noUndef 0 "cache:" (jsCapacity (some 3)) "k" "v" (some 5)
          ([] : LSStorage String)).2).1 =
      Except.ok (if 0 + 5 ≤ 5 then none else some "v")) ∧
    ((LS.has 5 "cache:" (jsCapacity (some 3)) "k"
        (LS.set noUndef 0 "cache:" (jsCapacity (some 3)) "k" "v" (some 5)
          ([] : LSStorage String)).2).1 =
      Except.ok (if 0 + 5 ≤ 5 then false else true)) ∧
    ((FS.get 5 "k"
        (FS.set noUndef 0 (jsCapacity (some 3)) "k" "v" (some 5)
          (FS.init (α := String))).2).1 =
      if 0 + 5 ≤ 5 then none else some "v") ∧
    ((FS.has 5 "k"
        (FS.set noUndef 0 (jsCapacity (some 3)) "k" "v" (some 5)
          (FS.init (α := String))).2).1 =
      if 0 + 5 ≤ 5 then false else true)) :=
  ⟨⟨by decide, by decide, by decide, by decide, by decide⟩,
    C4_ttl_boundary_amended noUndef "v" 0 5 5 (by decide) (by decide) "k" "cache:"
      (by decide) (some 3) Memory.init [] FS.init (by decide) [] (by decide)⟩

/-- C7 counterexample: a backing store whose reserved order-document slot
holds parseable non-array JSON (a serialised entry object).  Every caller
of getAccessOrder immediately invokes `.filter` on the parse result, which
throws a TypeError, so get, has and delete of a live key all reject —
contradicting "get/has/delete/clear never raise an error regardless of the
stored data".  (The slot for key "k" itself holds a perfectly well-formed
live entry.) -/
theorem C7_order_typeerror_counterexample :
    alookup ("cache:" ++ "k") lsEntOrderState =
      some (Content.ent ⟨some "v", 0, none⟩) ∧
    (LS.get 0 "cache:" none "k" lsEntOrderState).1 = Except.error () ∧
    (LS.has 0 "cache:" none "k" lsEntOrderState).1 = Except.error () ∧
    (LS.delete "cache:" "k" lsEntOrderState).1 = Except.error () := by
  decide

/-- C7 amended: as long as the reserved order document is absent,
unparseable or an array — all the adapter itself ever writes — the
key/value adapter's get and delete never raise an error (first two
conjuncts), and malformed entry data reads as a miss with has false; get
purges the corrupt slot and its access-order membership.  The file
adapter's get/has/delete never raise regardless of stored data, but get of
a corrupt file returns the miss with the state completely unchanged — the
corrupt file is removed only by the cleanup pass of a later set — and
delete of a key whose backing file is absent completes without error and
without state change (idempotent delete). -/
theorem C7_malformed_amended {α : Type} (now : Nat) (pre k : String)
    (cap : Option Nat) {s : LSStorage α} {st st2 : FSState α}
    {l : List String}
    (hkres : k ≠ "__access_order")
    (hord : LS.getAccessOrder pre s = some l)
    (hbad : alookup (pre ++ k) s = some .bad)
    (hfbad : alookup (FS.hash k) st.files = some .bad)
    (habs : alookup (FS.hash k) st2.files = none) :
    (∀ s2 : LSStorage α, (LS.getAccessOrder pre s2).isSome = true →
      ∃ r, (LS.get now pre cap k s2).1 = Except.ok r) ∧
    (∀ s2 : LSStorage α, (LS.getAccessOrder pre s2).isSome = true →
      (LS.delete pre k s2).1 = Except.ok ()) ∧
    (LS.get now pre cap k s).1 = Except.ok none ∧
    alookup (pre ++ k) (LS.get now pre cap k s).2 = none ∧
    LS.getAccessOrder pre (LS.get now pre cap k s).2 =
      some (l.filter (fun x => decide (x ≠ k))) ∧
    (LS.has now pre cap k s).1 = Except.ok false ∧
    (FS.get now k st).1 = none ∧
    (FS.get now k st).2 = st ∧
    (FS.has now k st).1 = false ∧
    FS.delete k st2 = st2 := by
  have hord2 : LS.getAccessOrder pre (aerase (pre ++ k) s) = some l := by
    rw [ls_getOrder_aerase_ne pre (entry_ne_orderKey pre hkres), hord]
  have hget : LS.get now pre cap k s =
      (Except.ok none, LS.setAccessOrder pre (l.filter (fun x => decide (x ≠ k)))
        (aerase (pre ++ k) s)) := by
    rw [LS.get, hbad, ls_rfs_eq hord2]
  have hfget : FS.get now k st = (none, st) := by
    rw [FS.get, hfbad]
  refine ⟨fun s2 h2 => ls_get_no_throw now pre cap k h2,
    fun s2 h2 => ls_delete_no_throw pre k h2,
    by rw [hget], ?_, ?_, ?_, by rw [hfget], by rw [hfget], ?_, ?_⟩
  · rw [hget]
    simp only []
    rw [LS.setAccessOrder, alookup_aset_ne (entry_ne_orderKey pre hkres),
      alookup_aerase_self]
  · rw [hget]
    simp only []
    rw [ls_getOrder_setOrder]
  · rw [ls_has_eq, hget]
    rfl
  · rw [fs_has_eq, hfget]
    rfl
  · rw [FS.delete, habs]

/-- C7 witness: concrete malformed inputs — a bad slot for key "k" on the
key/value side with an array order document tracking it, a bad file and a
fresh (empty) directory on the file side. -/
theorem C7_malformed_amended_witness :
    (("k" : String) ≠ "__access_order" ∧
      LS.getAccessOrder "cache:" lsBadState = some ["k"] ∧
      alookup ("cache:" ++ "k") lsBadState = some Content.bad ∧
      alookup (FS.hash "k") fsBadState.files = some Content.bad ∧
      alookup (FS.hash "k") (FS.init (α := String)).files = none) ∧
    ((∀ s2 : LSStorage String, (LS.getAccessOrder "cache:" s2).isSome = true →
        ∃ r, (LS.get 0 "cache:" none "k" s2).1 = Except.ok r) ∧
      (∀ s2 : LSStorage String, (LS.getAccessOrder "cache:" s2).isSome = true →
        (LS.delete "cache:" "k" s2).1 = Except.ok ()) ∧
      (LS.get 0 "cache:" none "k" lsBadState).1 = Except.ok none ∧
      alookup ("cache:" ++ "k") (LS.get 0 "cache:" none "k" lsBadState).2 = none ∧
      LS.getAccessOrder "cache:" (LS.get 0 "cache:" none "k" lsBadState).2 =
        some (["k"].filter (fun x => decide (x ≠ "k"))) ∧
      (LS.has 0 "cache:" none "k" lsBadState).1 = Except.ok false ∧
      (FS.get 0 "k" fsBadState).1 = none ∧
      (FS.get 0 "k" fsBadState).2 = fsBadState ∧
      (FS.has 0 "k" fsBadState).1 = false ∧
      FS.delete "k" (FS.init (α := String)) = FS.init) :=
  ⟨⟨by decide, by decide, by decide, by decide, by decide⟩,
    C7_malformed_amended 0 "cache:" "k" none
      (by decide) (by decide) (by decide) (by decide) (by decide)⟩

/-- C9: a configured capacity of 0 is falsy, so every adapter's constructor
falls back to an unbounded cache (`maxSize = Infinity`) rather than one
that stores nothing: after any sequence of non-expiring sets of
serialisation-faithful values from a fresh adapter, every set key is still
retrievable via get.  (The key/value conjunct assumes no key is the
reserved order-document name, a namespace collision that breaks
retrievability at any capacity and is orthogonal to the capacity-0
fallback.) -/
theorem C9_zero_capacity_unbounded {α : Type} (now : Nat) (pre : String)
    (ps : List (String × α)) (hres : ∀ p ∈ ps, p.1 ≠ "__access_order") :
    jsCapacity (some 0) = none ∧
    (∀ p ∈ ps, (Memory.get now p.1
      (Memory.setList now (jsCapacity (some 0)) ps Memory.init)).1.isSome = true) ∧
    (∀ p ∈ ps, ((LS.get now pre (jsCapacity (some 0)) p.1
      (LS.setList noUndef now pre (jsCapacity (some 0)) ps
        ([] : LSStorage α))).1.map Option.isSome) = Except.ok true) ∧
    (∀ p ∈ ps, (FS.get now p.1
      (FS.setList noUndef now (jsCapacity (some 0)) ps FS.init)).1.isSome = true) := by
  refine ⟨rfl, ?_, ?_, ?_⟩
  · obtain ⟨ha, _, hc⟩ := memory_setList_none now ps Memory.init
      (by intro q hq; simp [Memory.init] at hq)
    intro p hp
    exact memory_get_fresh now ha (hc p hp)
  · obtain ⟨ho2, _, hc⟩ := ls_setList_none now pre ps [] hres rfl
    intro p hp
    exact ls_get_live now pre _ ho2 (hc p hp)
  · obtain ⟨⟨ha, l3, ho3⟩, _, hc⟩ := fs_setList_none now ps FS.init
      (by intro q hq; simp [FS.init] at hq) ⟨[], rfl⟩
    intro p hp
    exact fs_get_live now ha ho3 (hc p hp)

/-- C9 witness: three sets on each adapter configured with capacity 0; all
three keys remain retrievable. -/
theorem C9_zero_capacity_unbounded_witness :
    (∀ p ∈ [("a", "1"), ("b", "2"), ("c", "3")], p.1 ≠ "__access_order") ∧
    (jsCapacity (some 0) = none ∧
      (∀ p ∈ [("a", "1"), ("b", "2"), ("c", "3")], (Memory.get 0 p.1
        (Memory.setList 0 (jsCapacity (some 0)) [("a", "1"), ("b", "2"), ("c", "3")]
          Memory.init)).1.isSome = true) ∧
      (∀ p ∈ [("a", "1"), ("b", "2"), ("c", "3")],
        ((LS.get 0 "cache:" (jsCapacity (some 0)) p.1
          (LS.setList noUndef 0 "cache:" (jsCapacity (some 0))
            [("a", "1"), ("b", "2"), ("c", "3")]
            ([] : LSStorage String))).1.map Option.isSome) = Except.ok true) ∧
      (∀ p ∈ [("a", "1"), ("b", "2"), ("c", "3")], (FS.get 0 p.1
        (FS.setList noUndef 0 (jsCapacity (some 0)) [("a", "1"), ("b", "2"), ("c", "3")]
          FS.init)).1.isSome = true)) :=
  ⟨by decide,
    C9_zero_capacity_unbounded 0 "cache:" [("a", "1"), ("b", "2"), ("c", "3")] (by decide)⟩

/-- C10: a stored undefined is indistinguishable from a miss at the public
interface: after set(k, undefined) on the memory adapter, get returns the
stored undefined (`some none`, which the JS interface collapses to the miss
observable `none`) while has returns true; consequently a memoized function
whose result is undefined is re-invoked on every call — after n calls the
underlying function has run n times, never served from cache. -/
theorem C10_stored_undefined_is_miss {β σ : Type} (now : Nat) (k : String)
    (cap ttl : Option Nat) (st : MemoryState (Option β))
    (f : σ → Option β) (keyOf : σ → String) (a : σ) (hf : f a = none) :
    (Memory.get now k (Memory.set now cap k (none : Option β) none st)).1 = some none ∧
    (Memory.get now k (Memory.set now cap k (none : Option β) none st)).1.join = none ∧
    (Memory.has now k (Memory.set now cap k (none : Option β) none st)).1 = true ∧
    ∀ n, (memoIter cap ttl f keyOf now a n).invocations = n := by
  have hlook := memory_set_lookup_self now cap k (none : Option β) none st
  refine ⟨?_, ?_, ?_, fun n => (memoIter_invocations cap ttl f keyOf now a hf n).1⟩
  · rw [Memory.get, hlook]
    rfl
  · rw [Memory.get, hlook]
    rfl
  · rw [Memory.has, hlook]
    rfl

/-- C10 witness: the constant-undefined function memoized over a unit
argument; the cached undefined is never served. -/
theorem C10_stored_undefined_is_miss_witness :
    ((fun _ : Unit => (none : Option Unit)) () = none) ∧
    ((Memory.get 0 "k" (Memory.set 0 none "k" (none : Option Unit) none
        Memory.init)).1 = some none ∧
      (Memory.get 0 "k" (Memory.set 0 none "k" (none : Option Unit) none
        Memory.init)).1.join = none ∧
      (Memory.has 0 "k" (Memory.set 0 none "k" (none : Option Unit) none
        Memory.init)).1 = true ∧
      ∀ n, (memoIter none none (fun _ : Unit => (none : Option Unit))
        (fun _ => "k") 0 () n).invocations = n) :=
  ⟨rfl, C10_stored_undefined_is_miss 0 "k" none none Memory.init
    (fun _ => none) (fun _ => "k") () rfl⟩

/-- C5 counterexample: with maxEntries = 2 and the three distinct keys "",
"x", "y" set in order, the first-inserted key "" is still retrievable (as
are all three): the empty string is falsy, so the source's
`if (oldestKey)` guard skips the eviction entirely and the store exceeds
its bound.  The claim as stated — first key a miss, exactly the two most
recent retrievable — fails. -/
theorem C5_empty_key_counterexample :
    (Memory.get 3 "" memC5state).1 = some "v0" ∧
    (Memory.get 3 "x" memC5state).1 = some "vx" ∧
    (Memory.get 3 "y" memC5state).1 = some "vy" := by
  decide

/-- C5 amended: for every adapter configured with maxEntries = n (n =
mid.length + 1 ≥ 1) and every sequence of n+1 distinct sets of
serialisation-faithful values whose keys are nonempty, not the reserved
order-document name, and not hash-digest-shaped, with no intervening
reads, the first-inserted key is a miss afterwards and every other key is
retrievable with its value. -/
theorem C5_lru_eviction_amended {α : Type} (now : Nat) (pre : String)
    (p0 plast : String × α) (mid : List (String × α))
    (hnd : ((p0 :: mid ++ [plast]).map Prod.fst).Nodup)
    (hkeys : ∀ p ∈ p0 :: mid ++ [plast], plainKey p.1) :
    ((Memory.get now p0.1 (Memory.setList now (jsCapacity (some (mid.length + 1)))
        (p0 :: mid ++ [plast]) Memory.init)).1 = none ∧
      ∀ p ∈ mid ++ [plast], (Memory.get now p.1 (Memory.setList now
        (jsCapacity (some (mid.length + 1))) (p0 :: mid ++ [plast])
        Memory.init)).1 = some p.2) ∧
    ((LS.get now pre (jsCapacity (some (mid.length + 1))) p0.1
        (LS.setList noUndef now pre (jsCapacity (some (mid.length + 1)))
          (p0 :: mid ++ [plast]) [])).1 = Except.ok none ∧
      ∀ p ∈ mid ++ [plast],
        (LS.get now pre (jsCapacity (some (mid.length + 1))) p.1
          (LS.setList noUndef now pre (jsCapacity (some (mid.length + 1)))
            (p0 :: mid ++ [plast]) [])).1 = Except.ok (some p.2)) ∧
    ((FS.get now p0.1 (FS.setList noUndef now (jsCapacity (some (mid.length + 1)))
        (p0 :: mid ++ [plast]) FS.init)).1 = none ∧
      ∀ p ∈ mid ++ [plast], (FS.get now p.1 (FS.setList noUndef now
        (jsCapacity (some (mid.length + 1))) (p0 :: mid ++ [plast])
        FS.init)).1 = some p.2) := by
  rw [jsCapacity_pos (Nat.succ_pos mid.length)]
  have hkeysfull : (p0 :: mid ++ [plast]).map Prod.fst =
      p0.1 :: (mid.map Prod.fst ++ [plast.1]) := by
    rw [List.map_append, List.map_cons]
    rfl
  have hndfull : (p0.1 :: (mid.map Prod.fst ++ [plast.1])).Nodup := by
    rw [← hkeysfull]
    exact hnd
  have hnd1 := List.nodup_cons.mp hndfull
  have hnd2 := List.nodup_append.mp hnd1.2
  have hp0mid : p0.1 ∉ mid.map Prod.fst := fun h => hnd1.1 (List.mem_append_left _ h)
  have hp0last : p0.1 ≠ plast.1 := by
    intro h
    exact hnd1.1 (List.mem_append_right _ (by rw [h]; exact List.mem_cons_self _ _))
  have hlastmid : plast.1 ∉ mid.map Prod.fst :=
    fun h => hnd2.2.2 h (List.mem_cons_self _ _)
  have hnd_p0mid : ((p0 :: mid).map Prod.fst).Nodup := by
    rw [List.map_cons]
    exact List.nodup_cons.mpr ⟨hp0mid, hnd2.1⟩
  have hnd_midlast : ((mid ++ [plast]).map Prod.fst).Nodup := by
    rw [List.map_append]
    exact hnd1.2
  have hlast_notin_p0mid : plast.1 ∉ (p0 :: mid).map Prod.fst := by
    rw [List.map_cons]
    intro h
    rcases List.mem_cons.mp h with h1 | h1
    · exact hp0last h1.symm
    · exact hlastmid h1
  have hp0_notin_midlast : p0.1 ∉ (mid ++ [plast]).map Prod.fst := by
    rw [List.map_append]
    intro h
    rcases List.mem_append.mp h with h1 | h1
    · exact hp0mid h1
    · exact hp0last (by simpa using h1)
  have hmem_full : ∀ p ∈ p0 :: mid, p ∈ p0 :: mid ++ [plast] := by
    intro p hp
    rcases List.mem_cons.mp hp with h1 | h1
    · rw [h1]; exact List.mem_cons_self _ _
    · exact List.mem_cons_of_mem _ (List.mem_append_left _ h1)
  have hp0plain : plainKey p0.1 := hkeys p0 (List.mem_cons_self _ _)
  have hlastplain : plainKey plast.1 :=
    hkeys plast (List.mem_cons_of_mem _ (List.mem_append_right _ (List.mem_cons_self _ _)))
  have hp0midplain : ∀ p ∈ p0 :: mid, plainKey p.1 :=
    fun p hp => hkeys p (hmem_full p hp)
  refine ⟨?_, ?_, ?_⟩
  -- Memory
  · have hsingle : ∀ X : MemoryState α,
        Memory.setList now (some (mid.length + 1)) [plast] X =
          Memory.set now (some (mid.length + 1)) plast.1 plast.2 none X := by
      intro X
      rw [memory_setList_cons]
      rfl
    have h2 : Memory.setList now (some (mid.length + 1)) (p0 :: mid) Memory.init =
        Memory.cleanState now (p0 :: mid) := by
      have := memory_setList_clean now (some (mid.length + 1)) (p0 :: mid) []
        hnd_p0mid
        (by
          intro j hj
          have hjlen : j < mid.length + 1 := by simpa using hj
          simp only [capLE, decide_eq_false_iff_not, Nat.not_le]
          exact hjlen)
      simpa using this
    have h3 : Memory.set now (some (mid.length + 1)) plast.1 plast.2 none
        (Memory.cleanState now (p0 :: mid)) =
        Memory.cleanState now (mid ++ [plast]) := by
      have := memory_set_evict now (mid.length + 1) p0 mid plast.1 plast.2 rfl
        hnd_p0mid hlast_notin_p0mid hp0plain.1
      simpa using this
    have hfinal : Memory.setList now (some (mid.length + 1))
        (p0 :: mid ++ [plast]) Memory.init =
        Memory.cleanState now (mid ++ [plast]) := by
      have h1 : Memory.setList now (some (mid.length + 1))
          ((p0 :: mid) ++ [plast]) Memory.init =
          Memory.setList now (some (mid.length + 1)) [plast]
            (Memory.setList now (some (mid.length + 1)) (p0 :: mid) Memory.init) :=
        memory_setList_append now _ (p0 :: mid) [plast] Memory.init
      exact h1.trans (by rw [h2, hsingle, h3])
    refine ⟨?_, ?_⟩
    · rw [hfinal, memory_get_clean_miss now now hp0_notin_midlast]
    · intro p hp
      rw [hfinal]
      exact memory_get_clean_hit now now hnd_midlast hp
  -- LocalStorage
  · have hsingle : ∀ X : LSStorage α,
        LS.setList noUndef now pre (some (mid.length + 1)) [plast] X =
          (LS.set noUndef now pre (some (mid.length + 1)) plast.1 plast.2 none X).2 := by
      intro X
      rw [ls_setList_cons]
      rfl
    have hres : ∀ p ∈ p0 :: mid, p.1 ≠ "__access_order" :=
      fun p hp => (hp0midplain p hp).2.1
    have hinv : LS.inv now pre (p0 :: mid)
        (LS.setList noUndef now pre (some (mid.length + 1)) (p0 :: mid) []) := by
      have := ls_setList_under now pre (some (mid.length + 1)) (p0 :: mid) [] []
        (ls_inv_init now pre) hnd_p0mid hres
        (by
          intro j hj
          have hjlen : j < mid.length + 1 := by simpa using hj
          simp only [capLT, decide_eq_false_iff_not, Nat.not_lt]
          exact hjlen)
      simpa using this
    have hev := ls_set_evict now pre (mid.length + 1) p0 mid plast.1 plast.2 hinv rfl
      hnd_p0mid hlast_notin_p0mid hlastplain.2.1 hres hp0plain.1
    have hfinal : LS.setList noUndef now pre (some (mid.length + 1))
        (p0 :: mid ++ [plast]) [] =
        (LS.set noUndef now pre (some (mid.length + 1)) plast.1 plast.2 none
          (LS.setList noUndef now pre (some (mid.length + 1)) (p0 :: mid) [])).2 := by
      have h1 : LS.setList noUndef now pre (some (mid.length + 1))
          ((p0 :: mid) ++ [plast]) [] =
          LS.setList noUndef now pre (some (mid.length + 1)) [plast]
            (LS.setList noUndef now pre (some (mid.length + 1)) (p0 :: mid) []) :=
        ls_setList_append noUndef now pre _ (p0 :: mid) [plast] []
      exact h1.trans (hsingle _)
    refine ⟨?_, ?_⟩
    · rw [hfinal, ls_get_none now pre _ hev.1]
    · intro p hp
      rw [hfinal]
      exact ls_get_hit now now pre _ hev.2 (by simpa using hp)
  -- FileSystem
  · have hsingle : ∀ X : FSState α,
        FS.setList noUndef now (some (mid.length + 1)) [plast] X =
          (FS.set noUndef now (some (mid.length + 1)) plast.1 plast.2 none X).2 := by
      intro X
      rw [fs_setList_cons]
      rfl
    have hfree_p0mid : ∀ p ∈ p0 :: mid, p.1.data.head? ≠ some '#' :=
      fun p hp => (hp0midplain p hp).2.2
    have h2 : (FS.set noUndef now (some (mid.length + 1)) p0.1 p0.2 none FS.init).2 =
        FS.cleanState now [] p0 := by
      have := fs_set_first now (some (mid.length + 1)) p0.1 p0.2
        (by simp [capLE])
      rw [this]
    have h4 : FS.setList noUndef now (some (mid.length + 1)) mid
        (FS.cleanState now [] p0) =
        FS.cleanState now ([] ++ (p0 :: mid).dropLast)
          ((p0 :: mid).getLast (List.cons_ne_nil p0 mid)) := by
      apply fs_setList_under
      · exact hnd_p0mid
      · exact hfree_p0mid
      · intro j hj
        have hjlen : j < mid.length + 1 := by simpa using hj
        simp only [capLE, decide_eq_false_iff_not, Nat.not_le]
        exact hjlen
    have hsplit : ([] ++ (p0 :: mid).dropLast) ++
        [(p0 :: mid).getLast (List.cons_ne_nil p0 mid)] = p0 :: mid := by
      rw [List.nil_append]
      exact List.dropLast_append_getLast (List.cons_ne_nil p0 mid)
    have h5 : FS.set noUndef now (some (mid.length + 1)) plast.1 plast.2 none
        (FS.cleanState now ([] ++ (p0 :: mid).dropLast)
          ((p0 :: mid).getLast (List.cons_ne_nil p0 mid))) =
        (Except.ok (), FS.cleanState now mid (plast.1, plast.2)) := by
      apply fs_set_evict now plast.2 hsplit
      · rw [List.nil_append, List.length_dropLast]
        simp
      · rw [hsplit]
        exact hnd_p0mid
      · rw [hsplit]
        exact hfree_p0mid
      · exact hlastplain.2.2
      · rw [hsplit]
        exact hlast_notin_p0mid
    have hfinal : FS.setList noUndef now (some (mid.length + 1))
        (p0 :: mid ++ [plast]) FS.init =
        FS.cleanState now mid plast := by
      have h1 : FS.setList noUndef now (some (mid.length + 1)) ((p0 :: mid) ++ [plast])
          FS.init =
          FS.setList noUndef now (some (mid.length + 1)) [plast]
            (FS.setList noUndef now (some (mid.length + 1)) (p0 :: mid) FS.init) :=
        fs_setList_append noUndef now _ (p0 :: mid) [plast] FS.init
      have h6 : FS.setList noUndef now (some (mid.length + 1)) (p0 :: mid) FS.init =
          FS.cleanState now ([] ++ (p0 :: mid).dropLast)
            ((p0 :: mid).getLast (List.cons_ne_nil p0 mid)) := by
        rw [fs_setList_cons, h2, h4]
      rw [h1, h6, hsingle, h5]
    refine ⟨?_, ?_⟩
    · rw [hfinal, fs_get_clean_miss now now hp0_notin_midlast]
    · intro p hp
      rw [hfinal]
      exact fs_get_clean_hit now now hnd_midlast hp
  
/-- C5 witness: the spec's concrete scenario — maxEntries 2; set k1, k2, k3
with plain keys; k1 misses, k2 and k3 hit. -/
theorem C5_lru_eviction_amended_witness :
    (((("k1", "v1") :: [("k2", "v2")] ++ [("k3", "v3")]).map Prod.fst).Nodup ∧
      (∀ p ∈ ("k1", "v1") :: [("k2", "v2")] ++ [("k3", "v3")], plainKey p.1)) ∧
    (((Memory.get 0 "k1" (Memory.setList 0 (jsCapacity (some 2))
        (("k1", "v1") :: [("k2", "v2")] ++ [("k3", "v3")]) Memory.init)).1 = none ∧
      ∀ p ∈ [("k2", "v2")] ++ [("k3", "v3")], (Memory.get 0 p.1 (Memory.setList 0
        (jsCapacity (some 2)) (("k1", "v1") :: [("k2", "v2")] ++ [("k3", "v3")])
        Memory.init)).1 = some p.2) ∧
    ((LS.get 0 "cache:" (jsCapacity (some 2)) "k1"
        (LS.setList noUndef 0 "cache:" (jsCapacity (some 2))
          (("k1", "v1") :: [("k2", "v2")] ++ [("k3", "v3")]) [])).1 =
        Except.ok none ∧
      ∀ p ∈ [("k2", "v2")] ++ [("k3", "v3")],
        (LS.get 0 "cache:" (jsCapacity (some 2)) p.1
          (LS.setList noUndef 0 "cache:" (jsCapacity (some 2))
            (("k1", "v1") :: [("k2", "v2")] ++ [("k3", "v3")]) [])).1 =
          Except.ok (some p.2)) ∧
    ((FS.get 0 "k1" (FS.setList noUndef 0 (jsCapacity (some 2))
        (("k1", "v1") :: [("k2", "v2")] ++ [("k3", "v3")]) FS.init)).1 = none ∧
      ∀ p ∈ [("k2", "v2")] ++ [("k3", "v3")], (FS.get 0 p.1 (FS.setList noUndef 0
        (jsCapacity (some 2)) (("k1", "v1") :: [("k2", "v2")] ++ [("k3", "v3")])
        FS.init)).1 = some p.2)) :=
  ⟨⟨by decide, by decide⟩,
    C5_lru_eviction_amended 0 "cache:" ("k1", "v1") ("k3", "v3") [("k2", "v2")]
      (by decide) (by decide)⟩

end Claims

end Crossmemo
